import Mathlib

/-!
Verification of the PIPSIM model-assembly and multi-case orchestration core.

This file is a shallow embedding, in Lean, of the core algorithms of the
PIPSIM repository:

* `app/core/model_builder.py` — `ModelBuilder.insert_junctions` and the
  section slicing in `create_section_components`;
* `app/core/multi_case_modeller.py` — `MultiCaseModeller.cases`,
  `set_sink_data`, `save_as_new_model`, and the column-name sanitisation of
  `_fetch_excel_data`;
* `app/core/network_simulation.py` — `NetworkSimulator.deactivate_lowflow_sinks`,
  `run_simulation`, `process_node_results`, `process_profile_results` and the
  orchestration `run_existing_model`;
* `app/core/model_populater.py` — `ModelPopulater.export_values` and
  `bulk_import_values`;
* `core/network_simulation_summary.py` — `NetworkSimulationSummary.
  get_pump_operating_point` and `get_pump_operating_points`.

Pandas DataFrames are embedded as lists of rows; a cell is an `Option PVal`
with `none` playing the role of NaN; float cells are embedded as `Rat`.
The external simulation engine and the spreadsheet file are collaborators
behind a narrow interface, so engine state is passed explicitly and the
write-then-read of a spreadsheet table is the identity on the table.
-/

namespace PIPSIM

/-- A spreadsheet / engine cell value: a number, a string, or a boolean.
`Option PVal` with `none` models an empty cell (pandas NaN). -/
inductive PVal where
  | num (q : Rat)
  | str (s : String)
  | boolean (b : Bool)
deriving DecidableEq

/-! ## Code-point string ordering

pandas `sort_values` on string columns compares strings by code points.
`String.lt` in core Lean does not reduce well in the kernel, so the order is
defined here directly on the character lists. -/

/-- Strict code-point lexicographic order on character lists. -/
def charsLt : List Char → List Char → Bool
  | [], [] => false
  | [], _ :: _ => true
  | _ :: _, [] => false
  | a :: as, b :: bs =>
    if a.toNat < b.toNat then true
    else if b.toNat < a.toNat then false
    else charsLt as bs

/-- Strict code-point order on strings. -/
def strLt (s t : String) : Bool := charsLt s.data t.data

/-- Reflexive code-point order on strings. -/
def strLe (s t : String) : Bool := !(strLt t s)

theorem charsLt_irrefl (a : List Char) : charsLt a a = false := by
  induction a with
  | nil => rfl
  | cons c cs ih => simp [charsLt, ih]

theorem charsLt_trans {a b c : List Char} (h₁ : charsLt a b = true)
    (h₂ : charsLt b c = true) : charsLt a c = true := by
  induction a generalizing b c with
  | nil =>
    cases b with
    | nil => simp [charsLt] at h₁
    | cons y ys =>
      cases c with
      | nil => simp [charsLt] at h₂
      | cons z zs => simp [charsLt]
  | cons x xs ih =>
    cases b with
    | nil => simp [charsLt] at h₁
    | cons y ys =>
      cases c with
      | nil => simp [charsLt] at h₂
      | cons z zs =>
        simp only [charsLt] at h₁ h₂ ⊢
        rcases Nat.lt_trichotomy x.toNat y.toNat with hxy | hxy | hxy
        · rcases Nat.lt_trichotomy y.toNat z.toNat with hyz | hyz | hyz
          · rw [if_pos (by omega)]
          · rw [if_pos (by omega)]
          · rw [if_neg (by omega), if_pos hyz] at h₂
            simp at h₂
        · rcases Nat.lt_trichotomy y.toNat z.toNat with hyz | hyz | hyz
          · rw [if_pos (by omega)]
          · rw [if_neg (by omega), if_neg (by omega)] at h₁
            rw [if_neg (by omega), if_neg (by omega)] at h₂
            rw [if_neg (by omega), if_neg (by omega)]
            exact ih h₁ h₂
          · rw [if_neg (by omega), if_pos hyz] at h₂
            simp at h₂
        · rw [if_neg (by omega), if_pos hxy] at h₁
          simp at h₁

theorem chars_eq_of_not_lt {a b : List Char} (h₁ : charsLt a b = false)
    (h₂ : charsLt b a = false) : a = b := by
  induction a generalizing b with
  | nil =>
    cases b with
    | nil => rfl
    | cons y ys => simp [charsLt] at h₁
  | cons x xs ih =>
    cases b with
    | nil => simp [charsLt] at h₂
    | cons y ys =>
      simp only [charsLt] at h₁ h₂
      rcases Nat.lt_trichotomy x.toNat y.toNat with hxy | hxy | hxy
      · rw [if_pos hxy] at h₁
        simp at h₁
      · rw [if_neg (by omega), if_neg (by omega)] at h₁
        rw [if_neg (by omega), if_neg (by omega)] at h₂
        have hxy' : x = y := by
          apply Char.ext
          unfold Char.toNat at hxy
          exact UInt32.eq_of_val_eq (Fin.ext hxy)
        subst hxy'
        rw [ih h₁ h₂]
      · rw [if_pos hxy] at h₂
        simp at h₂

theorem charsLt_asymm {a b : List Char} (h : charsLt a b = true) :
    charsLt b a = false := by
  by_contra hc
  have hc' : charsLt b a = true := by
    revert hc; cases charsLt b a <;> simp
  have := charsLt_trans h hc'
  rw [charsLt_irrefl] at this
  exact absurd this (by simp)

theorem strLe_total (s t : String) : strLe s t = true ∨ strLe t s = true := by
  by_cases h : charsLt t.data s.data = true
  · right
    simp [strLe, strLt, charsLt_asymm h]
  · left
    simp only [strLe, strLt, Bool.not_eq_true']
    revert h; cases charsLt t.data s.data <;> simp

theorem strLe_trans {s t u : String} (h₁ : strLe s t = true)
    (h₂ : strLe t u = true) : strLe s u = true := by
  simp only [strLe, strLt, Bool.not_eq_true'] at h₁ h₂ ⊢
  by_contra hc
  have hus : charsLt u.data s.data = true := by
    revert hc; cases charsLt u.data s.data <;> simp
  rcases Bool.eq_false_or_eq_true (charsLt t.data u.data) with htu | htu
  · have h3 := charsLt_trans htu hus
    rw [h3] at h₁
    simp at h₁
  · have heq : t.data = u.data := chars_eq_of_not_lt htu h₂
    rw [← heq] at hus
    rw [hus] at h₁
    simp at h₁

theorem strLe_of_strLt {s t : String} (h : strLt s t = true) : strLe s t = true := by
  simp [strLe, strLt, charsLt_asymm h]

theorem strLe_refl (s : String) : strLe s s = true := by
  simp [strLe, strLt, charsLt_irrefl]

theorem str_eq_of_le_le {s t : String} (h₁ : strLe s t = true)
    (h₂ : strLe t s = true) : s = t := by
  simp only [strLe, strLt, Bool.not_eq_true'] at h₁ h₂
  exact String.ext (chars_eq_of_not_lt h₂ h₁)

theorem strLt_trans {s t u : String} (h₁ : strLt s t = true)
    (h₂ : strLt t u = true) : strLt s u = true :=
  charsLt_trans h₁ h₂

theorem strLt_asymm {s t : String} (h : strLt s t = true) : strLt t s = false :=
  charsLt_asymm h

theorem str_eq_of_not_lt {s t : String} (h₁ : strLt s t = false)
    (h₂ : strLt t s = false) : s = t :=
  String.ext (chars_eq_of_not_lt h₁ h₂)

theorem strLt_irrefl (s : String) : strLt s s = false := charsLt_irrefl s.data

/-! ## MultiCaseModeller — case matrix, sink activation, output naming

Embedding of `app/core/multi_case_modeller.py`. -/

namespace MultiCaseModeller

/-- First-occurrence de-duplication, the order-preserving semantics of
`pandas.Series.unique()` used on the Conditions column in
`MultiCaseModeller.cases`. -/
def uniqueFirst : List String → List String
  | [] => []
  | a :: l => a :: uniqueFirst (l.filter (fun b => !(b == a)))
termination_by l => l.length
decreasing_by
  simp only [List.length_cons]
  exact Nat.lt_succ_of_le (List.length_filter_le _ _)

theorem mem_uniqueFirst (l : List String) (x : String) :
    x ∈ uniqueFirst l ↔ x ∈ l := by
  induction l using uniqueFirst.induct with
  | case1 => simp [uniqueFirst]
  | case2 a l ih =>
    rw [uniqueFirst]
    by_cases hx : x = a
    · subst hx; simp
    · simp only [List.mem_cons, ih, List.mem_filter]
      constructor
      · rintro (rfl | ⟨h, _⟩)
        · simp
        · exact Or.inr h
      · rintro (rfl | h)
        · exact Or.inl rfl
        · exact Or.inr ⟨h, by simp [hx]⟩

theorem nodup_uniqueFirst (l : List String) : (uniqueFirst l).Nodup := by
  induction l using uniqueFirst.induct with
  | case1 => simp [uniqueFirst]
  | case2 a l ih =>
    rw [uniqueFirst]
    refine List.nodup_cons.mpr ⟨fun hmem => ?_, ih⟩
    rw [mem_uniqueFirst, List.mem_filter] at hmem
    simp at hmem

/-- `MultiCaseModeller.cases`: the Python property returns
`list(product(self.sink_profile.columns, self.conditions["Conditions"].unique()))`,
i.e. `itertools.product` of the sink-profile case columns with the
first-occurrence-deduplicated condition labels, in iteration order. -/
def casesProperty (profileCols : List String) (condLabels : List String) :
    List (String × String) :=
  List.product profileCols (uniqueFirst condLabels)

/-- C2. For every sink profile table and conditions table, the `cases`
property yields exactly the Cartesian product of the profile's case columns
and the distinct condition labels, order-independent and without duplicates.
(The case columns of a well-formed profile table are pairwise distinct,
which is the `hnd` hypothesis.) -/
theorem cases_is_cartesian_product (profileCols condLabels : List String)
    (hnd : profileCols.Nodup) :
    (∀ p : String × String,
      p ∈ casesProperty profileCols condLabels ↔ p.1 ∈ profileCols ∧ p.2 ∈ condLabels) ∧
    (casesProperty profileCols condLabels).Nodup := by
  constructor
  · intro p
    cases p with
    | mk a b =>
      rw [casesProperty]
      rw [show List.product profileCols (uniqueFirst condLabels) =
        profileCols ×ˢ uniqueFirst condLabels from rfl]
      rw [List.mem_product, mem_uniqueFirst]
  · exact List.Nodup.product hnd (nodup_uniqueFirst condLabels)

/-- Witness for C2: profile columns A and B with condition labels X and Y
(Y appearing twice in the conditions column) give exactly the four pairs. -/
theorem cases_is_cartesian_product_witness :
    (∀ p : String × String,
      p ∈ casesProperty ["A", "B"] ["X", "Y", "Y"] ↔
        p.1 ∈ ["A", "B"] ∧ p.2 ∈ ["X", "Y", "Y"]) ∧
    (casesProperty ["A", "B"] ["X", "Y", "Y"]).Nodup :=
  cases_is_cartesian_product ["A", "B"] ["X", "Y", "Y"] (by decide)

/-- `MultiCaseModeller.MINIMUM_FLOWRATE = 0.001` — minimum flowrate for a
well to be active (STBD). -/
def MINIMUM_FLOWRATE : Rat := 1 / 1000

/-- The activation mask computed by `MultiCaseModeller.set_sink_data`:
`sink_data[ISACTIVE] = sink_data[parameter] > self.MINIMUM_FLOWRATE`. -/
def sinkIsActive (flow : Rat) : Bool := MINIMUM_FLOWRATE < flow

end MultiCaseModeller

/-! ## NetworkSimulator — low-flow deactivation

Embedding of `NetworkSimulator.deactivate_lowflow_sinks` from
`app/core/network_simulation.py`. -/

namespace NetworkSimulator

/-- `NetworkSimulator.MIN_FLOWRATE = 0.01`. -/
def MIN_FLOWRATE : Rat := 1 / 100

/-- The engine's data for one sink as returned by
`model.get_values(component=ModelComponents.SINK)`: the `FlowRateType`
field (if set), the named numeric fields, and the `IsActive` flag. -/
structure SinkData where
  flowrateType : Option String
  fields : List (String × Rat)
  isActive : Bool
deriving DecidableEq

/-- One sink's pass of the loop in `NetworkSimulator.deactivate_lowflow_sinks`:
read `flowrate_type = sink_data.get(FLOWRATETYPE)`, then
`sink_data.get(flowrate_type)`; skip the sink when that value is falsy
(absent or 0.0), and set `IsActive = False` only when the value is strictly
below `MIN_FLOWRATE`. -/
def deactivateLowflowSink (s : SinkData) : SinkData :=
  match s.flowrateType with
  | none => s
  | some ft =>
    match s.fields.lookup ft with
    | none => s
    | some v =>
      if v = 0 then s
      else if v < MIN_FLOWRATE then { s with isActive := false }
      else s

end NetworkSimulator

/-- Counterexample to C3: the claim says every deactivation path used before
a run treats a flow exactly equal to its minimum-flow threshold as inactive.
`MultiCaseModeller.set_sink_data` does (strict `>` mask, first conjunct),
but `NetworkSimulator.deactivate_lowflow_sinks` — a deactivation path used
before a run inside `run_existing_model` — leaves a sink whose flow equals
its threshold `MIN_FLOWRATE = 0.01` active (second conjunct), and also
leaves a zero-flow sink active because `0.0` is falsy and the sink is
skipped (third conjunct). -/
theorem lowflow_threshold_boundary_cex :
    MultiCaseModeller.sinkIsActive (1 / 1000) = false ∧
    (NetworkSimulator.deactivateLowflowSink
      ⟨some "LiquidFlowRate", [("LiquidFlowRate", 1 / 100)], true⟩).isActive = true ∧
    (NetworkSimulator.deactivateLowflowSink
      ⟨some "LiquidFlowRate", [("LiquidFlowRate", 0)], true⟩).isActive = true := by
  refine ⟨?_, ?_, ?_⟩
  · simp only [MultiCaseModeller.sinkIsActive, MultiCaseModeller.MINIMUM_FLOWRATE]
    simp
  · simp only [NetworkSimulator.deactivateLowflowSink, List.lookup]
    norm_num [NetworkSimulator.MIN_FLOWRATE]
  · simp only [NetworkSimulator.deactivateLowflowSink, List.lookup]
    norm_num

/-- C3 (amended). In `MultiCaseModeller.set_sink_data` the mask is exclusive:
a sink stays active exactly when its flow strictly exceeds
`MINIMUM_FLOWRATE = 0.001`, so a flow equal to that threshold is inactive.
In `NetworkSimulator.deactivate_lowflow_sinks` the boundary is different:
a sink is deactivated only when its resolved flow value is nonzero and
strictly below `MIN_FLOWRATE = 0.01`; a flow equal to that threshold, a zero
flow, or an unresolvable flow leaves the activation flag unchanged. -/
theorem lowflow_masking_spec (f : Rat) (s : NetworkSimulator.SinkData) :
    (MultiCaseModeller.sinkIsActive f = true ↔ MultiCaseModeller.MINIMUM_FLOWRATE < f) ∧
    (MultiCaseModeller.sinkIsActive MultiCaseModeller.MINIMUM_FLOWRATE = false) ∧
    ((NetworkSimulator.deactivateLowflowSink s).isActive = false ↔
      (s.isActive = false ∨
        ∃ ft v, s.flowrateType = some ft ∧ s.fields.lookup ft = some v ∧
          v ≠ 0 ∧ v < NetworkSimulator.MIN_FLOWRATE)) := by
  obtain ⟨ftOpt, fields, act⟩ := s
  refine ⟨by simp [MultiCaseModeller.sinkIsActive],
    by simp [MultiCaseModeller.sinkIsActive], ?_⟩
  cases ftOpt with
  | none =>
    simp [NetworkSimulator.deactivateLowflowSink]
  | some ft =>
    cases hv : fields.lookup ft with
    | none =>
      simp [NetworkSimulator.deactivateLowflowSink, hv]
    | some v =>
      by_cases h0 : v = 0
      · subst h0
        simp only [NetworkSimulator.deactivateLowflowSink, hv, if_pos rfl]
        constructor
        · intro h
          exact Or.inl h
        · rintro (h | ⟨ft', v', hft', hv', hne, _⟩)
          · exact h
          · cases hft'
            rw [hv] at hv'
            cases hv'
            exact absurd rfl hne
      · by_cases hlt : v < NetworkSimulator.MIN_FLOWRATE
        · simp only [NetworkSimulator.deactivateLowflowSink, hv, if_neg h0, if_pos hlt]
          exact ⟨fun _ => Or.inr ⟨ft, v, rfl, hv, h0, hlt⟩, fun _ => trivial⟩
        · simp only [NetworkSimulator.deactivateLowflowSink, hv, if_neg h0, if_neg hlt]
          constructor
          · intro h
            exact Or.inl h
          · rintro (h | ⟨ft', v', hft', hv', _, hlt'⟩)
            · exact h
            · cases hft'
              rw [hv] at hv'
              cases hv'
              exact absurd hlt' hlt

namespace MultiCaseModeller

/-- `MultiCaseModeller.save_as_new_model`: the saved variant's file name is
the case label, an underscore, the condition label, an underscore, and the
original model's file name. -/
def newModelFilename (case condition originalName : String) : String :=
  case ++ "_" ++ condition ++ "_" ++ originalName

/-- The underscore rewrite of `MultiCaseModeller._fetch_excel_data`:
`str.replace` of every underscore by a hyphen in one column name. -/
def sanitizeName (s : String) : String :=
  String.mk (s.data.map (fun c => if c = '_' then '-' else c))

/-- The column sanitisation step of `_fetch_excel_data`: when any column name
contains an underscore, every column name has its underscores replaced by
hyphens (with a logged warning); otherwise the columns are left unchanged. -/
def sanitizeCols (cols : List String) : List String :=
  if cols.any (fun c => c.data.contains '_') then cols.map sanitizeName else cols

theorem sanitizeName_no_underscore (s : String) : '_' ∉ (sanitizeName s).data := by
  simp only [sanitizeName, List.mem_map, not_exists]
  rintro c ⟨_, hc⟩
  by_cases h : c = '_' <;> simp [h] at hc

theorem sanitizeCols_no_underscore (cols : List String) :
    ∀ c ∈ sanitizeCols cols, '_' ∉ c.data := by
  intro c hc
  rw [sanitizeCols] at hc
  by_cases h : cols.any (fun c => c.data.contains '_') = true
  · rw [if_pos h] at hc
    obtain ⟨a, _, rfl⟩ := List.mem_map.mp hc
    exact sanitizeName_no_underscore a
  · rw [if_neg h] at hc
    intro hmem
    apply h
    rw [List.any_eq_true]
    exact ⟨c, hc, List.contains_iff_exists_mem_beq.mpr ⟨'_', hmem, by simp⟩⟩

theorem append_sep_inj {l₁ l₂ r₁ r₂ : List Char}
    (h₁ : '_' ∉ l₁) (h₂ : '_' ∉ l₂)
    (heq : l₁ ++ '_' :: r₁ = l₂ ++ '_' :: r₂) : l₁ = l₂ ∧ r₁ = r₂ := by
  induction l₁ generalizing l₂ with
  | nil =>
    cases l₂ with
    | nil => simpa using heq
    | cons b bs =>
      injection heq with hb _
      exact absurd (hb ▸ List.mem_cons_self b bs) h₂
  | cons a as ih =>
    cases l₂ with
    | nil =>
      injection heq with ha _
      exact absurd (ha ▸ List.mem_cons_self a as) h₁
    | cons b bs =>
      injection heq with hab hrest
      subst hab
      have h₁' : '_' ∉ as := fun hm => h₁ (List.mem_cons_of_mem a hm)
      have h₂' : '_' ∉ bs := fun hm => h₂ (List.mem_cons_of_mem a hm)
      obtain ⟨he, hr⟩ := ih h₁' h₂' hrest
      exact ⟨by rw [he], hr⟩

theorem newModelFilename_inj {c₁ d₁ c₂ d₂ n : String}
    (h₁ : '_' ∉ c₁.data) (h₂ : '_' ∉ c₂.data)
    (heq : newModelFilename c₁ d₁ n = newModelFilename c₂ d₂ n) :
    c₁ = c₂ ∧ d₁ = d₂ := by
  have hd := congrArg String.data heq
  simp only [newModelFilename, String.data_append] at hd
  simp only [List.append_assoc, List.singleton_append] at hd
  obtain ⟨hc, hrest⟩ := append_sep_inj h₁ h₂ hd
  exact ⟨String.ext hc, String.ext (List.append_cancel_right hrest)⟩

/-- C9. For every (case, condition) pair of the case matrix, the saved model
variant's file name is exactly the case label, an underscore, the condition
label, an underscore, and the original file name (`newModelFilename` is the
pure naming function of `save_as_new_model`), and the mapping from
(case, condition) to file name is injective across the case matrix: case
labels are sink-profile column names, which `_fetch_excel_data` leaves free
of underscores, and two distinct pairs of such labels always produce
distinct file names. -/
theorem save_as_new_model_injective (profileCols : List String)
    (c₁ c₂ d₁ d₂ originalName : String)
    (hc₁ : c₁ ∈ sanitizeCols profileCols) (hc₂ : c₂ ∈ sanitizeCols profileCols)
    (heq : newModelFilename c₁ d₁ originalName = newModelFilename c₂ d₂ originalName) :
    c₁ = c₂ ∧ d₁ = d₂ :=
  newModelFilename_inj (sanitizeCols_no_underscore profileCols c₁ hc₁)
    (sanitizeCols_no_underscore profileCols c₂ hc₂) heq

/-- Witness for C9: concrete sanitised case columns, a concrete condition
pair and a concrete base file name. -/
theorem save_as_new_model_injective_witness :
    "CS-1" ∈ sanitizeCols ["CS_1", "CS_2"] ∧
    ("CS-1" = "CS-1" ∧ "Cond_X" = "Cond_X") := by
  constructor
  · decide
  · exact save_as_new_model_injective ["CS_1", "CS_2"] "CS-1" "CS-1" "Cond_X" "Cond_X"
      "base.pips" (by decide) (by decide) rfl

end MultiCaseModeller

/-! ## Engine parameter dictionaries

Association-list embedding of the engine's per-component parameter
dictionaries and of the overwrite semantics of `model.set_values`. -/

/-- Overwrite the first binding of key `p` (or append one), the effect of
one parameter assignment pushed through the engine's `set_values`. -/
def setParam : List (String × Option PVal) → String → Option PVal →
    List (String × Option PVal)
  | [], p, v => [(p, v)]
  | q :: ps, p, v => if q.1 == p then (p, v) :: ps else q :: setParam ps p v

/-- Apply a whole parameter dictionary, one binding at a time. -/
def setParams (ps : List (String × Option PVal))
    (upd : List (String × Option PVal)) : List (String × Option PVal) :=
  upd.foldl (fun acc pv => setParam acc pv.1 pv.2) ps

theorem lookup_setParam (ps : List (String × Option PVal)) (p : String)
    (v : Option PVal) (q : String) :
    (setParam ps p v).lookup q = if q = p then some v else ps.lookup q := by
  induction ps with
  | nil =>
    by_cases hq : q = p
    · simp [setParam, List.lookup, hq]
    · simp [setParam, List.lookup, hq, show (q == p) = false from by simpa using hq]
  | cons kw ps ih =>
    obtain ⟨k, w⟩ := kw
    rw [setParam]
    by_cases hk : k = p
    · rw [if_pos (by simpa using hk)]
      by_cases hq : q = p
      · simp [List.lookup, hq]
      · have hqk : ¬ q = k := by rw [hk]; exact hq
        simp [List.lookup, hq, show (q == p) = false from by simpa using hq,
          show (q == k) = false from by simpa using hqk]
    · rw [if_neg (by simpa using hk)]
      by_cases hq : q = k
      · have hqp : ¬ q = p := by rw [hq]; exact hk
        simp [List.lookup, hq, hqp, hk,
          show (q == k) = true from by simpa using hq]
      · simp [List.lookup, hq, ih,
          show (q == k) = false from by simpa using hq]

theorem lookup_eq_none_of_not_mem_keys {β : Type} (l : List (String × β))
    (q : String) (h : q ∉ l.map Prod.fst) : l.lookup q = none := by
  induction l with
  | nil => rfl
  | cons kw l ih =>
    simp only [List.map_cons, List.mem_cons, not_or] at h
    simp only [List.lookup]
    rw [show (q == kw.1) = false from by simpa using h.1]
    exact ih h.2

theorem lookup_setParams (ps upd : List (String × Option PVal)) (q : String)
    (hnd : (upd.map Prod.fst).Nodup) :
    (setParams ps upd).lookup q =
      match upd.lookup q with
      | some v => some v
      | none => ps.lookup q := by
  induction upd generalizing ps with
  | nil => rfl
  | cons pv rest ih =>
    obtain ⟨pk, pw⟩ := pv
    simp only [List.map_cons, List.nodup_cons] at hnd
    rw [show setParams ps ((pk, pw) :: rest) = setParams (setParam ps pk pw) rest
      from rfl]
    rw [ih _ hnd.2]
    by_cases hq : q = pk
    · subst hq
      rw [lookup_eq_none_of_not_mem_keys rest q hnd.1]
      simp [List.lookup, lookup_setParam]
    · cases hr : List.lookup q rest with
      | some v =>
        simp [List.lookup, hq, hr, show (q == pk) = false from by simpa using hq]
      | none =>
        simp [List.lookup, hq, hr, lookup_setParam,
          show (q == pk) = false from by simpa using hq]

namespace MultiCaseModeller

/-- The state of the open Pipesim model as `set_sink_data` observes it: the
model path (`model.filename`) and `model.get_values(component=SINK)`, the
per-sink parameter dictionaries. -/
structure SinkModelState where
  path : String
  sinks : List (String × List (String × Option PVal))
deriving DecidableEq

/-- The two exceptions `set_sink_data` can raise: `PipsimModellingError`
(carrying the model path) and a pandas `KeyError` on the case column. -/
inductive SinkDataError where
  | modelling (msg : String) (pipsimPath : String)
  | keyErr (key : String)
deriving DecidableEq

/-- `MultiCaseModeller.set_sink_data`.  The sink names of the open model and
of the sink profile are compared first; a name present on either side only
raises `PipsimModellingError` carrying the model path before anything is
written (the `Except.error` branch returns no model state).  Otherwise the
case column is selected (a missing column is a pandas `KeyError`), renamed
to `parameter`, the `IsActive` mask `flow > MINIMUM_FLOWRATE` and the
`FlowRateType` tag are attached per sink, and the dictionary is pushed
through `model.set_values`. -/
def set_sink_data (m : SinkModelState)
    (profile : List (String × List (String × Rat)))
    (caseLabel : String) (param : String) : Except SinkDataError SinkModelState :=
  let sinksInModel := m.sinks.map Prod.fst
  let sinksInExcel := profile.map Prod.fst
  if (∃ s ∈ sinksInExcel, s ∉ sinksInModel) ∨ (∃ s ∈ sinksInModel, s ∉ sinksInExcel) then
    .error (.modelling "Sinks in model and excel do not match." m.path)
  else if ∀ p ∈ profile, (p.2.lookup caseLabel).isSome then
    let sinkData : List (String × List (String × Option PVal)) :=
      profile.map (fun p =>
        let flow := (p.2.lookup caseLabel).getD 0
        (p.1, [(param, some (.num flow)),
               ("IsActive", some (.boolean (sinkIsActive flow))),
               ("FlowRateType", some (.str param))]))
    .ok { m with sinks := m.sinks.map (fun s =>
      match sinkData.lookup s.1 with
      | none => s
      | some upd => (s.1, setParams s.2 upd)) }
  else
    .error (.keyErr caseLabel)

/-- C10. `set_sink_data` raises the modelling error carrying the model path
exactly when the sink-name sets of model and profile differ in either
direction; the check precedes every write, so in the error case the model's
sink parameters are untouched (the `Except.error` result carries no updated
state); and when the names agree (and the case column exists) the call
succeeds with an updated model at the same path. -/
theorem set_sink_data_mismatch_spec (m : SinkModelState)
    (profile : List (String × List (String × Rat))) (caseLabel param : String) :
    (((∃ s ∈ profile.map Prod.fst, s ∉ m.sinks.map Prod.fst) ∨
      (∃ s ∈ m.sinks.map Prod.fst, s ∉ profile.map Prod.fst)) ↔
      set_sink_data m profile caseLabel param =
        .error (.modelling "Sinks in model and excel do not match." m.path)) ∧
    (∀ msg path, set_sink_data m profile caseLabel param = .error (.modelling msg path) →
      path = m.path ∧ msg = "Sinks in model and excel do not match.") ∧
    ((∀ s ∈ profile.map Prod.fst, s ∈ m.sinks.map Prod.fst) →
     (∀ s ∈ m.sinks.map Prod.fst, s ∈ profile.map Prod.fst) →
     (∀ p ∈ profile, (p.2.lookup caseLabel).isSome) →
      ∃ m', set_sink_data m profile caseLabel param = .ok m' ∧ m'.path = m.path) := by
  rw [set_sink_data]
  by_cases hmis : (∃ s ∈ profile.map Prod.fst, s ∉ m.sinks.map Prod.fst) ∨
      (∃ s ∈ m.sinks.map Prod.fst, s ∉ profile.map Prod.fst)
  · rw [if_pos hmis]
    refine ⟨⟨fun _ => rfl, fun _ => hmis⟩, ?_, ?_⟩
    · intro msg path h
      injection h with h'
      cases h'
      exact ⟨rfl, rfl⟩
    · intro h₁ h₂ _
      rcases hmis with ⟨s, hs, hns⟩ | ⟨s, hs, hns⟩
      · exact absurd (h₁ s hs) hns
      · exact absurd (h₂ s hs) hns
  · rw [if_neg hmis]
    by_cases hcol : ∀ p ∈ profile, (p.2.lookup caseLabel).isSome
    · rw [if_pos hcol]
      refine ⟨⟨fun h => absurd h hmis, fun h => by cases h⟩, ?_, ?_⟩
      · intro msg path h
        cases h
      · intro _ _ _
        exact ⟨_, rfl, rfl⟩
    · rw [if_neg hcol]
      refine ⟨⟨fun h => absurd h hmis, fun h => by cases h⟩, ?_, ?_⟩
      · intro msg path h
        cases h
      · intro _ _ h₃
        exact absurd h₃ hcol

/-- Witness for C10: a model and a profile sharing exactly the sink name S1,
with the case column present, succeed and keep the model path. -/
theorem set_sink_data_mismatch_spec_witness :
    ∃ m', set_sink_data ⟨"base.pips", [("S1", [])]⟩ [("S1", [("CS-1", 5)])]
        "CS-1" "LiquidFlowRate" = .ok m' ∧ m'.path = "base.pips" :=
  (set_sink_data_mismatch_spec ⟨"base.pips", [("S1", [])]⟩ [("S1", [("CS-1", 5)])]
      "CS-1" "LiquidFlowRate").2.2 (by decide) (by decide) (by decide)

end MultiCaseModeller

/-! ## ModelBuilder — junction insertion

Embedding of `ModelBuilder.insert_junctions` from
`app/core/model_builder.py`. -/

namespace ModelBuilder

/-- One row of a section's two-column slice as iterated by
`DataFrame.iterrows()` in `insert_junctions`: the pandas index label (kept
from the source sheet by the `dropna` in `create_section_components`)
together with the loop-column and type-column cells. -/
structure SrcRow where
  idx : Nat
  name : String
  typ : String
deriving DecidableEq

/-- A row of the DataFrame returned by `insert_junctions`: either one of the
input rows, or a generated junction row — loop cell LJ(sec_seq), type cell
Junction — recorded with its section number and sequence number. -/
inductive JRow where
  | junction (sec seq : Nat)
  | original (name typ : String)
deriving DecidableEq

/-- The loop-column cell of an output row; a junction renders its name like
the Python f-string LJ(sec_seq). -/
def JRow.nameCell : JRow → String
  | .junction sec seq => "LJ(" ++ toString sec ++ "_" ++ toString seq ++ ")"
  | .original n _ => n

/-- The type-column cell of an output row. -/
def JRow.typeCell : JRow → String
  | .junction _ _ => "Junction"
  | .original _ t => t

/-- Whether an output row is a flow-carrying element. -/
def JRow.isFlowline : JRow → Bool
  | .junction _ _ => false
  | .original _ t => t == "Flowline"

/-- The sequence number of a generated junction row. -/
def JRow.seqOf : JRow → Option Nat
  | .junction _ q => some q
  | .original _ _ => none

/-- The name/type cells of an original (non-generated) output row. -/
def JRow.origOf : JRow → Option (String × String)
  | .junction _ _ => none
  | .original n t => some (n, t)

/-- `previous_row is not None and previous_row[type_column] == "Flowline"`. -/
def prevIsFlowline : Option SrcRow → Bool
  | none => false
  | some p => p.typ == "Flowline"

/-- The `for index, row in df.iterrows()` loop of `insert_junctions`,
carrying `previous_row` and `j_counter`; returns the accumulated `new_rows`
and the final `j_counter`.  A junction is prepended when the row's index
label is 0 and its type is Flowline, and when both the previous and the
current row are Flowline. -/
def insertLoop (sec : Nat) : List SrcRow → Option SrcRow → Nat → List JRow × Nat
  | [], _, j => ([], j)
  | r :: rest, prev, j =>
    if (r.idx == 0) && (r.typ == "Flowline") then
      if prevIsFlowline prev && (r.typ == "Flowline") then
        let t := insertLoop sec rest (some r) (j + 1 + 1)
        (JRow.junction sec j :: JRow.junction sec (j + 1) ::
          JRow.original r.name r.typ :: t.1, t.2)
      else
        let t := insertLoop sec rest (some r) (j + 1)
        (JRow.junction sec j :: JRow.original r.name r.typ :: t.1, t.2)
    else
      if prevIsFlowline prev && (r.typ == "Flowline") then
        let t := insertLoop sec rest (some r) (j + 1)
        (JRow.junction sec j :: JRow.original r.name r.typ :: t.1, t.2)
      else
        let t := insertLoop sec rest (some r) j
        (JRow.original r.name r.typ :: t.1, t.2)

/-- `ModelBuilder.insert_junctions`: empty input is returned unchanged;
otherwise the loop runs with `j_counter = 1`, and a final junction is
appended when the last row's type is Flowline. -/
def insert_junctions (rows : List SrcRow) (sec : Nat) : List JRow :=
  match rows.getLast? with
  | none => []
  | some last =>
    let t := insertLoop sec rows none 1
    if last.typ == "Flowline" then t.1 ++ [JRow.junction sec t.2] else t.1

/-- Counterexample to C1: a non-empty section table whose (single) first row
is a Flowline but carries pandas index label 1 — exactly what
`create_section_components` produces when the sheet's leading row of this
column pair is all blank and `dropna` removes it.  The claim requires a
synthetic Junction before this first flow-carrying row, but the code's
`index == 0` test fails and the output starts with the original row. -/
theorem insert_junctions_first_row_cex :
    insert_junctions [⟨1, "FL-1", "Flowline"⟩] 0 =
      [JRow.original "FL-1" "Flowline", JRow.junction 0 1] ∧
    (insert_junctions [⟨1, "FL-1", "Flowline"⟩] 0).head? =
      some (JRow.original "FL-1" "Flowline") := by
  constructor <;> decide

end ModelBuilder

namespace ModelBuilder

/-- The generated junction sequence numbers of an output, in output order. -/
def junctionSeqs (l : List JRow) : List Nat := l.filterMap JRow.seqOf

theorem insertLoop_origOf (sec : Nat) (rows : List SrcRow) (prev : Option SrcRow)
    (j : Nat) :
    ((insertLoop sec rows prev j).1).filterMap JRow.origOf =
      rows.map (fun r => (r.name, r.typ)) := by
  induction rows generalizing prev j with
  | nil => rfl
  | cons r rest ih =>
    by_cases ha : ((r.idx == 0) && (r.typ == "Flowline")) = true <;>
      by_cases hb : (prevIsFlowline prev && (r.typ == "Flowline")) = true <;>
      simp [insertLoop, ha, hb, List.filterMap_append, JRow.origOf, ih]

theorem insertLoop_seqs (sec : Nat) (rows : List SrcRow) (prev : Option SrcRow)
    (j : Nat) :
    ∃ k, (insertLoop sec rows prev j).2 = j + k ∧
      junctionSeqs (insertLoop sec rows prev j).1 = List.range' j k := by
  induction rows generalizing prev j with
  | nil => exact ⟨0, rfl, rfl⟩
  | cons r rest ih =>
    by_cases ha : ((r.idx == 0) && (r.typ == "Flowline")) = true <;>
      by_cases hb : (prevIsFlowline prev && (r.typ == "Flowline")) = true
    · obtain ⟨k, hk, hs⟩ := ih (some r) (j + 1 + 1)
      refine ⟨k + 2, ?_, ?_⟩
      · simp [insertLoop, ha, hb, hk]
        omega
      · simp [junctionSeqs, insertLoop, ha, hb, List.filterMap_append, JRow.seqOf]
        rw [show k + 2 = (k + 1) + 1 from rfl, List.range'_succ, List.range'_succ]
        have := hs
        simp only [junctionSeqs] at this
        rw [this]
    · obtain ⟨k, hk, hs⟩ := ih (some r) (j + 1)
      refine ⟨k + 1, ?_, ?_⟩
      · simp [insertLoop, ha, hb, hk]
        omega
      · simp [junctionSeqs, insertLoop, ha, hb, List.filterMap_append, JRow.seqOf]
        rw [List.range'_succ]
        have := hs
        simp only [junctionSeqs] at this
        rw [this]
    · obtain ⟨k, hk, hs⟩ := ih (some r) (j + 1)
      refine ⟨k + 1, ?_, ?_⟩
      · simp [insertLoop, ha, hb, hk]
        omega
      · simp [junctionSeqs, insertLoop, ha, hb, List.filterMap_append, JRow.seqOf]
        rw [List.range'_succ]
        have := hs
        simp only [junctionSeqs] at this
        rw [this]
    · obtain ⟨k, hk, hs⟩ := ih (some r) j
      refine ⟨k, ?_, ?_⟩
      · simp [insertLoop, ha, hb, hk]
      · simp [junctionSeqs, insertLoop, ha, hb, List.filterMap_append, JRow.seqOf]
        have := hs
        simp only [junctionSeqs] at this
        rw [this]


theorem insertLoop_head_nonflow (sec : Nat) (rows : List SrcRow)
    (prev : Option SrcRow) (j : Nat) (hp : prevIsFlowline prev = true) :
    ∀ y ∈ ((insertLoop sec rows prev j).1).head?, y.isFlowline = false := by
  intro y hy
  cases rows with
  | nil => simp [insertLoop] at hy
  | cons r rest =>
    by_cases ht : (r.typ == "Flowline") = true
    · have hb : (prevIsFlowline prev && (r.typ == "Flowline")) = true := by
        rw [hp, ht]; rfl
      by_cases ha : ((r.idx == 0) && (r.typ == "Flowline")) = true
      · rw [insertLoop, if_pos ha, if_pos hb] at hy
        dsimp only at hy
        simp at hy
        subst hy
        rfl
      · rw [insertLoop, if_neg ha, if_pos hb] at hy
        dsimp only at hy
        simp at hy
        subst hy
        rfl
    · have ht' : (r.typ == "Flowline") = false := by
        cases h : (r.typ == "Flowline") with
        | true => exact absurd h ht
        | false => rfl
      have ha : ¬(((r.idx == 0) && (r.typ == "Flowline")) = true) := by
        simp [ht']
      have hb : ¬((prevIsFlowline prev && (r.typ == "Flowline")) = true) := by
        simp [ht']
      rw [insertLoop, if_neg ha, if_neg hb] at hy
      dsimp only at hy
      simp at hy
      subst hy
      simp [JRow.isFlowline, ht']

theorem insertLoop_chain' (sec : Nat) (rows : List SrcRow) (prev : Option SrcRow)
    (j : Nat) :
    List.Chain' (fun x y => ¬(x.isFlowline = true ∧ y.isFlowline = true))
      (insertLoop sec rows prev j).1 := by
  induction rows generalizing prev j with
  | nil => simp [insertLoop]
  | cons r rest ih =>
    have horig : ∀ j' : Nat,
        List.Chain' (fun x y => ¬(x.isFlowline = true ∧ y.isFlowline = true))
          (JRow.original r.name r.typ :: (insertLoop sec rest (some r) j').1) := by
      intro j'
      rw [List.chain'_cons']
      refine ⟨?_, ih (some r) j'⟩
      intro y hy
      by_cases ht : (r.typ == "Flowline") = true
      · have hnf := insertLoop_head_nonflow sec rest (some r) j'
          (by rw [prevIsFlowline]; exact ht) y hy
        intro hc
        rw [hnf] at hc
        exact absurd hc.2 (by simp)
      · intro hc
        have hor : (JRow.original r.name r.typ).isFlowline = false := by
          simp only [JRow.isFlowline]
          cases h : (r.typ == "Flowline") with
          | true => exact absurd h ht
          | false => rfl
        rw [hor] at hc
        exact absurd hc.1 (by simp)
    by_cases ha : ((r.idx == 0) && (r.typ == "Flowline")) = true <;>
      by_cases hb : (prevIsFlowline prev && (r.typ == "Flowline")) = true
    · rw [insertLoop, if_pos ha, if_pos hb]
      dsimp only
      rw [List.chain'_cons']
      refine ⟨fun y _ hc => absurd hc.1 (by simp [JRow.isFlowline]), ?_⟩
      rw [List.chain'_cons']
      exact ⟨fun y _ hc => absurd hc.1 (by simp [JRow.isFlowline]), horig _⟩
    · rw [insertLoop, if_pos ha, if_neg hb]
      dsimp only
      rw [List.chain'_cons']
      exact ⟨fun y _ hc => absurd hc.1 (by simp [JRow.isFlowline]), horig _⟩
    · rw [insertLoop, if_neg ha, if_pos hb]
      dsimp only
      rw [List.chain'_cons']
      exact ⟨fun y _ hc => absurd hc.1 (by simp [JRow.isFlowline]), horig _⟩
    · rw [insertLoop, if_neg ha, if_neg hb]
      dsimp only
      exact horig _

/-- C1 (amended). For every non-empty section table, `insert_junctions`
(a) inserts a synthetic Junction before the first row when that row is
flow-carrying and carries the pandas index label 0 — the code tests
`index == 0`, so a table whose default index was shifted by `dropna` does
not get the leading junction; (b) inserts a junction between every pair of
consecutive flow-carrying rows (no two adjacent output rows are both
flow-carrying, while the original rows are preserved in order); (c) appends
a junction after the last row when it is flow-carrying; and the generated
junction rows carry the section index with sequence numbers 1, 2, 3, …
in output order — strictly increasing, pairwise distinct, restarting at 1
for each section. -/
theorem insert_junctions_spec (rows : List SrcRow) (sec : Nat) (hne : rows ≠ []) :
    (∀ r, rows.head? = some r → r.idx = 0 → r.typ = "Flowline" →
      (insert_junctions rows sec).head? = some (JRow.junction sec 1)) ∧
    List.Chain' (fun x y => ¬(x.isFlowline = true ∧ y.isFlowline = true))
      (insert_junctions rows sec) ∧
    (∀ r, rows.getLast? = some r → r.typ = "Flowline" →
      ∃ q, (insert_junctions rows sec).getLast? = some (JRow.junction sec q)) ∧
    (insert_junctions rows sec).filterMap JRow.origOf =
      rows.map (fun r => (r.name, r.typ)) ∧
    junctionSeqs (insert_junctions rows sec) =
      List.range' 1 (junctionSeqs (insert_junctions rows sec)).length ∧
    (junctionSeqs (insert_junctions rows sec)).Pairwise (· < ·) := by
  obtain ⟨last, hlast⟩ : ∃ l, rows.getLast? = some l := by
    cases h : rows.getLast? with
    | none => exact absurd (List.getLast?_eq_none_iff.mp h) hne
    | some l => exact ⟨l, rfl⟩
  have hout : insert_junctions rows sec =
      (if (last.typ == "Flowline") = true
       then (insertLoop sec rows none 1).1 ++
         [JRow.junction sec (insertLoop sec rows none 1).2]
       else (insertLoop sec rows none 1).1) := by
    rw [insert_junctions, hlast]
  obtain ⟨k, hk, hs⟩ := insertLoop_seqs sec rows none 1
  refine ⟨?_, ?_, ?_, ?_, ?_⟩
  · -- (a): leading junction when the first row has index label 0 and is a Flowline
    intro r hr hidx htyp
    cases rows with
    | nil => cases hr
    | cons r0 rest =>
      have hr0 : r0 = r := by
        simpa using hr
      subst hr0
      have ha : ((r0.idx == 0) && (r0.typ == "Flowline")) = true := by
        simp [hidx, htyp]
      have hb : ¬((prevIsFlowline none && (r0.typ == "Flowline")) = true) := by
        simp [prevIsFlowline]
      have hbody : ((insertLoop sec (r0 :: rest) none 1).1).head? =
          some (JRow.junction sec 1) := by
        rw [insertLoop, if_pos ha, if_neg hb]
        rfl
      rw [hout]
      by_cases hfl : (last.typ == "Flowline") = true
      · rw [if_pos hfl, List.head?_append, hbody]
        rfl
      · rw [if_neg hfl]
        exact hbody
  · -- (b): no two adjacent output rows are flow-carrying
    rw [hout]
    by_cases hfl : (last.typ == "Flowline") = true
    · rw [if_pos hfl, List.chain'_append]
      refine ⟨insertLoop_chain' sec rows none 1, by simp, ?_⟩
      intro x _ y hy
      simp at hy
      subst hy
      intro hc
      exact absurd hc.2 (by simp [JRow.isFlowline])
    · rw [if_neg hfl]
      exact insertLoop_chain' sec rows none 1
  · -- (c): trailing junction when the last row is a Flowline
    intro r hr htyp
    rw [hlast] at hr
    have : last = r := by simpa using hr
    subst this
    have hfl : (last.typ == "Flowline") = true := by simp [htyp]
    refine ⟨(insertLoop sec rows none 1).2, ?_⟩
    rw [hout, if_pos hfl]
    exact List.getLast?_concat _
  · -- originals preserved in order
    rw [hout]
    by_cases hfl : (last.typ == "Flowline") = true
    · rw [if_pos hfl, List.filterMap_append]
      simp [JRow.origOf, insertLoop_origOf]
    · rw [if_neg hfl]
      exact insertLoop_origOf sec rows none 1
  · -- junction sequence numbers are 1, 2, 3, …
    have hseq : ∃ m, junctionSeqs (insert_junctions rows sec) = List.range' 1 m := by
      rw [hout]
      by_cases hfl : (last.typ == "Flowline") = true
      · refine ⟨k + 1, ?_⟩
        rw [if_pos hfl]
        show ((insertLoop sec rows none 1).1 ++
          [JRow.junction sec (insertLoop sec rows none 1).2]).filterMap JRow.seqOf =
            List.range' 1 (k + 1)
        rw [List.filterMap_append]
        have hb : ((insertLoop sec rows none 1).1).filterMap JRow.seqOf =
            List.range' 1 k := hs
        rw [hb, hk]
        rw [List.range'_concat]
        simp [JRow.seqOf]
      · refine ⟨k, ?_⟩
        rw [if_neg hfl]
        exact hs
    obtain ⟨m, hm⟩ := hseq
    constructor
    · rw [hm, List.length_range']
    · rw [hm]
      exact List.pairwise_lt_range' 1 m

/-- Witness for C1 (amended): a two-row section, both rows Flowline, default
index labels 0 and 1; the theorem applied at this input shows the output
begins with the junction LJ(2_1). -/
theorem insert_junctions_spec_witness :
    (insert_junctions [⟨0, "A", "Flowline"⟩, ⟨1, "B", "Flowline"⟩] 2).head? =
      some (JRow.junction 2 1) :=
  (insert_junctions_spec [⟨0, "A", "Flowline"⟩, ⟨1, "B", "Flowline"⟩] 2
    (by decide)).1 ⟨0, "A", "Flowline"⟩ rfl rfl rfl

end ModelBuilder

/-! ## NetworkSimulator — orchestration of one case

Embedding of `NetworkSimulator.run_simulation` and `run_existing_model`
from `app/core/network_simulation.py`.  The external engine's behaviour is
a parameter: which steps raise, and what the engine's `validate()` call
returns.  Each engine call is recorded as an event so that "the run call is
never attempted" and "the session is closed" are statements about the
recorded trace. -/

namespace NetworkSimulator

/-- The externally visible calls made while orchestrating one case. -/
inductive Ev where
  | getConds
  | deactivate
  | validate
  | resetConds
  | runStep
  | procNode
  | procProfile
  | writeExcel
  | save
  | close
deriving DecidableEq

/-- An error caught by `run_existing_model`: the typed
`NetworkSimulationError` (carrying the model path) or any other exception
raised by a step. -/
inductive OrchError where
  | netsim (msg : String) (modelPath : String)
  | engine (step : Ev)
deriving DecidableEq

/-- The environment of one case: the model path, the engine's validation
result, and which of the fallible steps raise. -/
structure OrchEnv where
  modelPath : String
  validationErrors : List String
  getCondsOk : Bool
  deactivateOk : Bool
  runOk : Bool
  procNodeOk : Bool
  procProfileOk : Bool
  writeOk : Bool
  saveOk : Bool

/-- One plain step: it emits its event and raises iff its flag is false. -/
def step (ok : Bool) (e : Ev) : List Ev × Option OrchError :=
  ([e], if ok then none else some (.engine e))

/-- `NetworkSimulator.run_simulation`: `validate()` is called first; a
truthy (non-empty) validation-error list raises `NetworkSimulationError`
with message "Model validation unsuccessful." carrying the model path,
before `reset_conditions` and the run call; otherwise the run is attempted
and may itself raise. -/
def run_simulation (env : OrchEnv) : List Ev × Option OrchError :=
  if env.validationErrors ≠ [] then
    ([Ev.validate], some (.netsim "Model validation unsuccessful." env.modelPath))
  else if env.runOk then ([Ev.validate, Ev.resetConds, Ev.runStep], none)
  else ([Ev.validate, Ev.resetConds, Ev.runStep], some (.engine Ev.runStep))

/-- Sequential composition of steps: stop at the first raised error, keep
the events of the steps that ran. -/
def seqSteps : List (List Ev × Option OrchError) → List Ev × Option OrchError
  | [] => ([], none)
  | (evs, e) :: rest =>
    match e with
    | some err => (evs, some err)
    | none =>
      let t := seqSteps rest
      (evs ++ t.1, t.2)

/-- `NetworkSimulator.run_existing_model`: the `try` block runs
`get_boundary_conditions`, `deactivate_lowflow_sinks`, `run_simulation`,
`process_node_results`, `process_profile_results`,
`write_results_to_excel` and `model.save()` in order; both `except` arms
merely log the caught error; the `finally` arm closes the model, so `close`
is always the last event.  The returned error is the logged one, `none` on
success. -/
def run_existing_model (env : OrchEnv) : List Ev × Option OrchError :=
  let t := seqSteps [
    step env.getCondsOk Ev.getConds,
    step env.deactivateOk Ev.deactivate,
    run_simulation env,
    step env.procNodeOk Ev.procNode,
    step env.procProfileOk Ev.procProfile,
    step env.writeOk Ev.writeExcel,
    step env.saveOk Ev.save]
  (t.1 ++ [Ev.close], t.2)

/-- C8. For every case run: (i) the engine session is closed last whatever
happens (the finally-equivalent cleanup); (ii) whenever `validate` returns
a non-empty error list the run call is never attempted; (iii) if moreover
the steps before the validation gate did not themselves raise, the case is
aborted with the typed `NetworkSimulationError` naming the model path, and
the validate call did happen. -/
theorem run_existing_model_spec (env : OrchEnv) :
    ((run_existing_model env).1.getLast? = some Ev.close) ∧
    (env.validationErrors ≠ [] → Ev.runStep ∉ (run_existing_model env).1) ∧
    (env.validationErrors ≠ [] → env.getCondsOk = true → env.deactivateOk = true →
      (run_existing_model env).2 =
        some (.netsim "Model validation unsuccessful." env.modelPath) ∧
      Ev.validate ∈ (run_existing_model env).1) := by
  obtain ⟨path, verrs, g, d, r, pn, pp, w, sv⟩ := env
  refine ⟨?_, ?_, ?_⟩
  · rw [run_existing_model]
    exact List.getLast?_concat _
  · intro hv
    have hrs : run_simulation ⟨path, verrs, g, d, r, pn, pp, w, sv⟩ =
        ([Ev.validate], some (.netsim "Model validation unsuccessful." path)) := by
      rw [run_simulation, if_pos hv]
    cases g <;> cases d <;>
      · rw [run_existing_model]
        dsimp only
        rw [hrs]
        simp [seqSteps, step]
  · intro hv hg hd
    subst hg
    subst hd
    have hrs : run_simulation ⟨path, verrs, true, true, r, pn, pp, w, sv⟩ =
        ([Ev.validate], some (.netsim "Model validation unsuccessful." path)) := by
      rw [run_simulation, if_pos hv]
    constructor <;>
      · rw [run_existing_model]
        dsimp only
        rw [hrs]
        simp [seqSteps, step]

/-- Witness for C8: a concrete failing environment (one validation error,
everything else healthy): the typed error carries the model path and the
validate call is in the trace. -/
theorem run_existing_model_spec_witness :
    (run_existing_model ⟨"m.pips", ["err1"], true, true, true, true, true, true,
        true⟩).2 =
      some (.netsim "Model validation unsuccessful." "m.pips") ∧
    Ev.validate ∈ (run_existing_model ⟨"m.pips", ["err1"], true, true, true, true,
        true, true, true⟩).1 :=
  (run_existing_model_spec ⟨"m.pips", ["err1"], true, true, true, true, true, true,
      true⟩).2.2 (by decide) rfl rfl

end NetworkSimulator

/-! ## NetworkSimulationSummary — pump operating points

Embedding of `NetworkSimulationSummary.get_pump_operating_point` and
`get_pump_operating_points` from `core/network_simulation_summary.py`.
The per-case profile sheet is embedded as the list of its rows with their
BranchEquipment label and numeric Pressure cell. -/

namespace NetworkSimulationSummary

/-- One row of a case's profile-results sheet: the BranchEquipment label
(absent on the units row) and the Pressure cell. -/
structure ProfRow where
  equipment : Option String
  pressure : Rat
deriving DecidableEq

/-- The one-row pump-operating-point frame built per case. -/
structure PumpOp where
  caseLabel : String
  suction : Rat
  discharge : Rat
  head : Rat
deriving DecidableEq

/-- The `IndexError` message raised when a label has no matching row:
the f-string names both equipment labels and the case. -/
def pumpErrMsg (suction discharge caseLabel : String) : String :=
  "Error in getting pump operating points for '" ++ suction ++ "' and '" ++
    discharge ++ "' in " ++ caseLabel ++ ".\n" ++
    "Check if the Pump and Strainer in 'inputs.json' file is in the " ++
    "Profile Results.xlsx are present in the profile results."

/-- `NetworkSimulationSummary.get_pump_operating_point`: the suction
pressure is the first Pressure at the suction label (`.values[0]`), then the
discharge pressure likewise, and the head is discharge minus suction; a
label with no matching row raises `IndexError` with `pumpErrMsg`. -/
def get_pump_operating_point (df : List ProfRow) (caseLabel : String)
    (suction discharge : String) : Except String PumpOp :=
  match (df.filter (fun r => r.equipment == some suction)).head? with
  | none => .error (pumpErrMsg suction discharge caseLabel)
  | some rs =>
    match (df.filter (fun r => r.equipment == some discharge)).head? with
    | none => .error (pumpErrMsg suction discharge caseLabel)
    | some rd => .ok ⟨caseLabel, rs.pressure, rd.pressure, rd.pressure - rs.pressure⟩

/-- `NetworkSimulationSummary.get_pump_operating_points`: one operating
point per profile sheet, in sheet order; the per-sheet `IndexError` is not
caught (only `KeyError` is, which the typed rows rule out) and aborts the
whole derivation. -/
def get_pump_operating_points (sheets : List (String × List ProfRow))
    (suction discharge : String) : Except String (List PumpOp) :=
  match sheets with
  | [] => .ok []
  | (sht, df) :: rest =>
    match get_pump_operating_point df sht suction discharge with
    | .error e => .error e
    | .ok x =>
      match get_pump_operating_points rest suction discharge with
      | .error e => .error e
      | .ok xs => .ok (x :: xs)

/-- C7. For every case whose profile table has rows at both the suction and
discharge labels, the computed operating point has head equal to discharge
pressure minus suction pressure; for a case missing either label the call
raises the `IndexError` whose message names the case and the missing label
(both labels are spelled into the message); and inside
`get_pump_operating_points` such an error aborts the whole derivation with
that same message — the case is not silently skipped. -/
theorem pump_operating_point_spec (df : List ProfRow)
    (caseLabel suction discharge : String)
    (sheets : List (String × List ProfRow)) :
    (∀ rs rd, (df.filter (fun r => r.equipment == some suction)).head? = some rs →
      (df.filter (fun r => r.equipment == some discharge)).head? = some rd →
      get_pump_operating_point df caseLabel suction discharge =
        .ok ⟨caseLabel, rs.pressure, rd.pressure, rd.pressure - rs.pressure⟩) ∧
    ((df.filter (fun r => r.equipment == some suction) = [] ∨
      df.filter (fun r => r.equipment == some discharge) = []) →
      get_pump_operating_point df caseLabel suction discharge =
        .error (pumpErrMsg suction discharge caseLabel)) ∧
    (∃ pre mid post, pumpErrMsg suction discharge caseLabel =
      pre ++ suction ++ mid ++ discharge ++ post ∧
      ∃ pre2 post2, pumpErrMsg suction discharge caseLabel =
        pre2 ++ caseLabel ++ post2) ∧
    (∀ pre post, sheets = pre ++ (caseLabel, df) :: post →
      (∀ sh ∈ pre, ∃ x, get_pump_operating_point sh.2 sh.1 suction discharge = .ok x) →
      df.filter (fun r => r.equipment == some suction) = [] →
      get_pump_operating_points sheets suction discharge =
        .error (pumpErrMsg suction discharge caseLabel)) := by
  refine ⟨?_, ?_, ?_, ?_⟩
  · intro rs rd hs hd
    rw [get_pump_operating_point, hs, hd]
  · rintro (h | h)
    · rw [get_pump_operating_point, h]
      rfl
    · rw [get_pump_operating_point]
      cases hs : (df.filter (fun r => r.equipment == some suction)).head? with
      | none => rfl
      | some rs =>
        rw [h]
        rfl
  · refine ⟨"Error in getting pump operating points for '", "' and '", ?_, ?_, ?_⟩
    · exact "' in " ++ caseLabel ++ ".\n" ++
        "Check if the Pump and Strainer in 'inputs.json' file is in the " ++
        "Profile Results.xlsx are present in the profile results."
    · simp [pumpErrMsg, String.append_assoc]
    · refine ⟨"Error in getting pump operating points for '" ++ suction ++
        "' and '" ++ discharge ++ "' in ", ".\n" ++
        "Check if the Pump and Strainer in 'inputs.json' file is in the " ++
        "Profile Results.xlsx are present in the profile results.", ?_⟩
      simp [pumpErrMsg, String.append_assoc]
  · intro pre post hsheets hpre hmiss
    subst hsheets
    induction pre with
    | nil =>
      simp only [List.nil_append]
      rw [get_pump_operating_points]
      rw [show get_pump_operating_point df caseLabel suction discharge =
        .error (pumpErrMsg suction discharge caseLabel) from by
          rw [get_pump_operating_point, hmiss]
          rfl]
    | cons sh rest ih =>
      obtain ⟨x, hx⟩ := hpre sh (by simp)
      rw [List.cons_append, get_pump_operating_points]
      rw [hx]
      rw [ih (fun s hs => hpre s (by simp [hs]))]

/-- Witness for C7: suction pressure 50 at PumpIn and discharge pressure 120
at PumpOut give head 70; and a sheet list whose case CS-1 lacks the suction
label aborts the whole derivation with the message naming CS-1. -/
theorem pump_operating_point_spec_witness :
    get_pump_operating_point
        [⟨some "PumpIn", 50⟩, ⟨some "PumpOut", 120⟩] "CS-1" "PumpIn" "PumpOut" =
      .ok ⟨"CS-1", 50, 120, 70⟩ ∧
    get_pump_operating_points [("CS-1", [⟨some "StrainerB", 7⟩])] "PumpIn" "PumpOut" =
      .error (pumpErrMsg "PumpIn" "PumpOut" "CS-1") := by
  constructor
  · have h := (pump_operating_point_spec
      [⟨some "PumpIn", 50⟩, ⟨some "PumpOut", 120⟩] "CS-1" "PumpIn" "PumpOut" []).1
      ⟨some "PumpIn", 50⟩ ⟨some "PumpOut", 120⟩ (by decide) (by decide)
    rw [h]
    norm_num
  · exact (pump_operating_point_spec [⟨some "StrainerB", 7⟩] "CS-1" "PumpIn"
      "PumpOut" [("CS-1", [⟨some "StrainerB", 7⟩])]).2.2.2 [] []
      (by decide) (by intro sh h; cases h) (by decide)
end NetworkSimulationSummary

/-! ## NetworkSimulator — node-result reshaping

Embedding of `NetworkSimulator.process_node_results`. -/

namespace NetworkSimulator

/-- One row of the flattened node-results frame: the node name (the engine
dict key moved into the Node column by `reset_index` and `rename`) and the
variable cells, which the reshaping carries along untouched. -/
structure NRow where
  node : String
  vals : List (String × Option PVal)
deriving DecidableEq

/-- A node row with the boundary `Type` column attached. -/
structure TNRow where
  row : NRow
  btype : Option String
deriving DecidableEq

/-- The `apply` of `process_node_results`: attach
`boundary_conditions.loc["BoundaryNodeType", well]` when the node is a
boundary column, else None. -/
def attachType (bc : List (String × String)) (r : NRow) : TNRow :=
  ⟨r, bc.lookup r.node⟩

/-- The `sort_values(by=[TYPE, "Node"], ascending=[False, True])` order:
resolved boundary types descending, node names ascending on equal types;
rows with an unresolved (NaN) type sort after every resolved row (pandas
default `na_position="last"`). -/
def nodeLE (x y : TNRow) : Bool :=
  match x.btype, y.btype with
  | some a, some b => strLt b a || (b == a && strLe x.row.node y.row.node)
  | some _, none => true
  | none, some _ => false
  | none, none => true

/-- `NetworkSimulator.process_node_results`: an empty node frame raises
`NetworkSimulationError`; otherwise the boundary type is attached, the
rows whose Node is "Unit" are extracted, the remaining rows are sorted by
(type descending, node ascending), the units rows are put back in front,
and the `Type` column is dropped again by the final column selection. -/
def process_node_results (rows : List NRow) (bc : List (String × String)) :
    Except String (List NRow) :=
  if rows = [] then .error "Simulation produced no node results."
  else
    .ok ((((rows.map (attachType bc)).filter (fun t => t.row.node == "Unit")) ++
      List.insertionSort (fun a b => nodeLE a b = true)
        ((rows.map (attachType bc)).filter (fun t => !(t.row.node == "Unit")))).map
          (fun t => t.row))

theorem nodeLE_total (x y : TNRow) : nodeLE x y = true ∨ nodeLE y x = true := by
  obtain ⟨rx, tx⟩ := x
  obtain ⟨ry, ty⟩ := y
  cases tx with
  | none =>
    cases ty with
    | none => left; rfl
    | some b => right; rfl
  | some a =>
    cases ty with
    | none => left; rfl
    | some b =>
      by_cases h₁ : strLt b a = true
      · left
        simp [nodeLE, h₁]
      · by_cases h₂ : strLt a b = true
        · right
          simp [nodeLE, h₂]
        · have hab : a = b := by
            apply str_eq_of_not_lt
            · exact Bool.not_eq_true _ ▸ (by revert h₂; cases strLt a b <;> simp)
            · exact (by revert h₁; cases strLt b a <;> simp)
          subst hab
          rcases strLe_total rx.node ry.node with h | h
          · left
            simp [nodeLE, h]
          · right
            simp [nodeLE, h]

theorem nodeLE_trans (x y z : TNRow) (h₁ : nodeLE x y = true)
    (h₂ : nodeLE y z = true) : nodeLE x z = true := by
  obtain ⟨rx, tx⟩ := x
  obtain ⟨ry, ty⟩ := y
  obtain ⟨rz, tz⟩ := z
  cases tx with
  | none =>
    cases ty with
    | some b => simp [nodeLE] at h₁
    | none =>
      cases tz with
      | some c => simp [nodeLE] at h₂
      | none => rfl
  | some a =>
    cases tz with
    | none => rfl
    | some c =>
      cases ty with
      | none => simp [nodeLE] at h₂
      | some b =>
        simp only [nodeLE, Bool.or_eq_true, Bool.and_eq_true, beq_iff_eq] at h₁ h₂ ⊢
        rcases h₁ with h₁ | ⟨rfl, h₁⟩
        · rcases h₂ with h₂ | ⟨rfl, h₂⟩
          · exact Or.inl (strLt_trans h₂ h₁)
          · exact Or.inl h₁
        · rcases h₂ with h₂ | ⟨rfl, h₂⟩
          · exact Or.inl h₂
          · exact Or.inr ⟨rfl, strLe_trans h₁ h₂⟩

end NetworkSimulator

/-- Counterexample to C4: node rows Unit, S1, S2, S3 where the boundary
table resolves S1 as Sink and S2 as Source but knows nothing of S3.  The
claim says the reshaped table drops S3; the code keeps it — `sort_values`
merely sorts NaN-typed rows last — so the output is
Unit, S2 (Source), S1 (Sink), S3, with S3 still present. -/
theorem process_node_results_keeps_unresolved_cex :
    NetworkSimulator.process_node_results
        [⟨"Unit", [("Pressure", some (.str "barg"))]⟩,
         ⟨"S1", [("Pressure", some (.num 10))]⟩,
         ⟨"S2", [("Pressure", some (.num 20))]⟩,
         ⟨"S3", [("Pressure", some (.num 30))]⟩]
        [("S1", "Sink"), ("S2", "Source")] =
      .ok [⟨"Unit", [("Pressure", some (.str "barg"))]⟩,
           ⟨"S2", [("Pressure", some (.num 20))]⟩,
           ⟨"S1", [("Pressure", some (.num 10))]⟩,
           ⟨"S3", [("Pressure", some (.num 30))]⟩] := by
  rfl

/-- C4 (amended). For every non-empty node-result table: the reshaped table
is a permutation of the input — rows whose boundary type cannot be resolved
are kept, not dropped; the first units row (Node = "Unit") is pinned first;
and the rows after the units block are sorted by the `nodeLE` order — type
descending, then node name ascending, with every unresolved-type row after
every resolved one. -/
theorem process_node_results_spec (rows : List NetworkSimulator.NRow)
    (bc : List (String × String)) (hne : rows ≠ []) :
    ∃ out, NetworkSimulator.process_node_results rows bc = .ok out ∧
      out.Perm rows ∧
      (∀ u rest', rows.filter (fun r => r.node == "Unit") = u :: rest' →
        out.head? = some u) ∧
      List.Pairwise (fun a b => NetworkSimulator.nodeLE a b = true)
        ((out.drop ((rows.filter (fun r => r.node == "Unit")).length)).map
          (NetworkSimulator.attachType bc)) := by
  have hmapid : ∀ l : List NetworkSimulator.NRow,
      (l.map (NetworkSimulator.attachType bc)).map (fun t => t.row) = l := by
    intro l
    rw [List.map_map]
    exact List.map_id'' (fun _ => rfl) l
  have hfilter : ∀ p : String → Bool,
      (rows.map (NetworkSimulator.attachType bc)).filter (fun t => p t.row.node) =
        (rows.filter (fun r => p r.node)).map (NetworkSimulator.attachType bc) := by
    intro p
    rw [List.filter_map]
    rfl
  refine ⟨((((rows.map (NetworkSimulator.attachType bc)).filter
      (fun t => t.row.node == "Unit")) ++
    List.insertionSort (fun a b => NetworkSimulator.nodeLE a b = true)
      ((rows.map (NetworkSimulator.attachType bc)).filter
        (fun t => !(t.row.node == "Unit")))).map (fun t => t.row)),
    ?_, ?_, ?_, ?_⟩
  · rw [NetworkSimulator.process_node_results, if_neg hne]
  · -- permutation: nothing is dropped
    have h₁ : (List.insertionSort (fun a b => NetworkSimulator.nodeLE a b = true)
        ((rows.map (NetworkSimulator.attachType bc)).filter
          (fun t => !(t.row.node == "Unit")))).Perm
        ((rows.map (NetworkSimulator.attachType bc)).filter
          (fun t => !(t.row.node == "Unit"))) :=
      List.perm_insertionSort _ _
    have h₂ := List.Perm.append_left
      ((rows.map (NetworkSimulator.attachType bc)).filter
        (fun t => t.row.node == "Unit")) h₁
    have h₃ := h₂.trans (List.filter_append_perm _ _)
    have h₄ := h₃.map (fun t : NetworkSimulator.TNRow => t.row)
    rw [hmapid rows] at h₄
    exact h₄
  · -- the first units row is pinned first
    intro u rest' hu
    rw [List.map_append, List.head?_append]
    rw [hfilter (fun n => n == "Unit"), hu]
    rfl
  · -- the non-units block is sorted by nodeLE
    rw [List.map_append]
    have hlen : (((rows.map (NetworkSimulator.attachType bc)).filter
        (fun t => t.row.node == "Unit")).map (fun t => t.row)).length =
        (rows.filter (fun r => r.node == "Unit")).length := by
      rw [hfilter (fun n => n == "Unit"), hmapid]
    rw [← hlen, List.drop_left]
    have hsorted : List.Pairwise (fun a b => NetworkSimulator.nodeLE a b = true)
        (List.insertionSort (fun a b => NetworkSimulator.nodeLE a b = true)
          ((rows.map (NetworkSimulator.attachType bc)).filter
            (fun t => !(t.row.node == "Unit")))) := by
      haveI : IsTotal NetworkSimulator.TNRow
          (fun a b => NetworkSimulator.nodeLE a b = true) :=
        ⟨NetworkSimulator.nodeLE_total⟩
      haveI : IsTrans NetworkSimulator.TNRow
          (fun a b => NetworkSimulator.nodeLE a b = true) :=
        ⟨NetworkSimulator.nodeLE_trans⟩
      exact List.sorted_insertionSort _ _
    have hmem : ∀ t ∈ List.insertionSort
        (fun a b => NetworkSimulator.nodeLE a b = true)
        ((rows.map (NetworkSimulator.attachType bc)).filter
          (fun t => !(t.row.node == "Unit"))),
        NetworkSimulator.attachType bc t.row = t := by
      intro t ht
      have ht₂ := (List.perm_insertionSort _ _).mem_iff.mp ht
      have ht₃ := (List.mem_filter.mp ht₂).1
      obtain ⟨r, _, rfl⟩ := List.mem_map.mp ht₃
      rfl
    rw [List.map_map]
    rw [show (NetworkSimulator.attachType bc ∘ fun t : NetworkSimulator.TNRow => t.row) =
      (fun t : NetworkSimulator.TNRow => NetworkSimulator.attachType bc t.row) from rfl]
    rw [List.map_congr_left (fun t ht => hmem t ht)]
    rw [List.map_id']
    exact hsorted

/-- Witness for C4 (amended): the Unit, S1, S2, S3 table of the
counterexample satisfies the amended reshaping contract. -/
theorem process_node_results_spec_witness :
    ∃ out, NetworkSimulator.process_node_results
        [⟨"Unit", [("Pressure", some (.str "barg"))]⟩,
         ⟨"S1", [("Pressure", some (.num 10))]⟩,
         ⟨"S2", [("Pressure", some (.num 20))]⟩,
         ⟨"S3", [("Pressure", some (.num 30))]⟩]
        [("S1", "Sink"), ("S2", "Source")] = .ok out ∧
      out.Perm
        [⟨"Unit", [("Pressure", some (.str "barg"))]⟩,
         ⟨"S1", [("Pressure", some (.num 10))]⟩,
         ⟨"S2", [("Pressure", some (.num 20))]⟩,
         ⟨"S3", [("Pressure", some (.num 30))]⟩] ∧
      (∀ u rest',
        ([⟨"Unit", [("Pressure", some (.str "barg"))]⟩,
          ⟨"S1", [("Pressure", some (.num 10))]⟩,
          ⟨"S2", [("Pressure", some (.num 20))]⟩,
          ⟨"S3", [("Pressure", some (.num 30))]⟩] :
            List NetworkSimulator.NRow).filter (fun r => r.node == "Unit") =
          u :: rest' → out.head? = some u) ∧
      List.Pairwise (fun a b => NetworkSimulator.nodeLE a b = true)
        ((out.drop
          (([⟨"Unit", [("Pressure", some (.str "barg"))]⟩,
             ⟨"S1", [("Pressure", some (.num 10))]⟩,
             ⟨"S2", [("Pressure", some (.num 20))]⟩,
             ⟨"S3", [("Pressure", some (.num 30))]⟩] :
               List NetworkSimulator.NRow).filter
                (fun r => r.node == "Unit")).length).map
          (NetworkSimulator.attachType [("S1", "Sink"), ("S2", "Source")])) :=
  process_node_results_spec
    [⟨"Unit", [("Pressure", some (.str "barg"))]⟩,
     ⟨"S1", [("Pressure", some (.num 10))]⟩,
     ⟨"S2", [("Pressure", some (.num 20))]⟩,
     ⟨"S3", [("Pressure", some (.num 30))]⟩]
    [("S1", "Sink"), ("S2", "Source")] (by decide)

/-! ## NetworkSimulator — profile-result reshaping

Embedding of `NetworkSimulator.process_profile_results`. -/

namespace NetworkSimulator

/-- One row of a branch's profile data: the sparse BranchEquipment label
and the profile-variable cells, carried along untouched. -/
structure PRow where
  equipment : Option String
  vals : List (String × Option PVal)
deriving DecidableEq

/-- A profile row after the Branch column is inserted; the units row keeps
NaN in both Branch and BranchEquipment. -/
structure BRow where
  branch : Option String
  equipment : Option String
  vals : List (String × Option PVal)
deriving DecidableEq

/-- `branch_df["BranchEquipment"] = branch_df["BranchEquipment"].ffill()`:
forward-fill the sparse equipment label. -/
def ffill (acc : Option String) : List PRow → List PRow
  | [] => []
  | r :: rest => ⟨r.equipment.or acc, r.vals⟩ :: ffill (r.equipment.or acc) rest

/-- `drop_duplicates(subset=["BranchEquipment"], keep="last")`: a row is
kept exactly when no later row carries the same (possibly NaN) equipment
key. -/
def dedupLast : List PRow → List PRow
  | [] => []
  | r :: rest =>
    if rest.any (fun s => s.equipment == r.equipment) then dedupLast rest
    else r :: dedupLast rest

/-- `unique_rows.insert(0, "Branch", branch)`. -/
def tagBranch (b : String) (r : PRow) : BRow := ⟨some b, r.equipment, r.vals⟩

/-- NaN-last ascending order on the BranchEquipment key. -/
def optStrLE : Option String → Option String → Bool
  | some c, some d => strLe c d
  | some _, none => true
  | none, some _ => false
  | none, none => true

/-- The `sort_values(by=["Branch", "BranchEquipment"])` order: branch
ascending, then equipment ascending with NaN last (pandas default
`na_position="last"`); rows without a branch (only the units row, which is
never sorted) are placed first to keep the order total. -/
def profLE (x y : BRow) : Bool :=
  match x.branch, y.branch with
  | some a, some b => strLt a b || (a == b && optStrLE x.equipment y.equipment)
  | some _, none => false
  | none, _ => true

/-- `NetworkSimulator.process_profile_results`: iterate
`sorted(self.results.profile.items())`; per branch forward-fill the
equipment label, de-duplicate keeping the last row per key, insert the
Branch column; concatenate (`pd.concat` raises on an empty frame list — the
error case), sort all rows by (Branch, BranchEquipment) ascending, and
prepend the units row built from `results.profile_units`. -/
def process_profile_results (profileUnits : List (String × Option PVal))
    (profile : List (String × List PRow)) : Except String (List BRow) :=
  if profile = [] then .error "No objects to concatenate"
  else
    .ok (⟨none, none, profileUnits⟩ ::
      List.insertionSort (fun a b => profLE a b = true)
        (((List.insertionSort
            (fun a b : String × List PRow => strLe a.1 b.1 = true) profile).map
          (fun p => (dedupLast (ffill none p.2)).map (tagBranch p.1))).flatten))

theorem optStrLE_total (x y : Option String) :
    optStrLE x y = true ∨ optStrLE y x = true := by
  cases x with
  | none => cases y with
    | none => left; rfl
    | some d => right; rfl
  | some c => cases y with
    | none => left; rfl
    | some d => exact strLe_total c d

theorem optStrLE_trans {x y z : Option String} (h₁ : optStrLE x y = true)
    (h₂ : optStrLE y z = true) : optStrLE x z = true := by
  cases x with
  | none => cases y with
    | none => cases z with
      | none => rfl
      | some e => simp [optStrLE] at h₂
    | some d => simp [optStrLE] at h₁
  | some c => cases z with
    | none => rfl
    | some e => cases y with
      | none => simp [optStrLE] at h₂
      | some d => exact strLe_trans h₁ h₂

theorem profLE_total (x y : BRow) : profLE x y = true ∨ profLE y x = true := by
  obtain ⟨bx, ex, vx⟩ := x
  obtain ⟨by', ey, vy⟩ := y
  cases bx with
  | none => left; rfl
  | some a => cases by' with
    | none => right; rfl
    | some b =>
      by_cases h₁ : strLt a b = true
      · left
        simp [profLE, h₁]
      · by_cases h₂ : strLt b a = true
        · right
          simp [profLE, h₂]
        · have hab : a = b := by
            apply str_eq_of_not_lt
            · exact (by revert h₁; cases strLt a b <;> simp)
            · exact (by revert h₂; cases strLt b a <;> simp)
          subst hab
          rcases optStrLE_total ex ey with h | h
          · left
            simp [profLE, h]
          · right
            simp [profLE, h]

theorem profLE_trans (x y z : BRow) (h₁ : profLE x y = true)
    (h₂ : profLE y z = true) : profLE x z = true := by
  obtain ⟨bx, ex, vx⟩ := x
  obtain ⟨by', ey, vy⟩ := y
  obtain ⟨bz, ez, vz⟩ := z
  cases bx with
  | none => rfl
  | some a =>
    cases by' with
    | none => simp [profLE] at h₁
    | some b =>
      cases bz with
      | none => simp [profLE] at h₂
      | some c =>
        simp only [profLE, Bool.or_eq_true, Bool.and_eq_true, beq_iff_eq] at h₁ h₂ ⊢
        rcases h₁ with h₁ | ⟨rfl, h₁⟩
        · rcases h₂ with h₂ | ⟨rfl, h₂⟩
          · exact Or.inl (strLt_trans h₁ h₂)
          · exact Or.inl h₁
        · rcases h₂ with h₂ | ⟨rfl, h₂⟩
          · exact Or.inl h₂
          · exact Or.inr ⟨rfl, optStrLE_trans h₁ h₂⟩

theorem mem_dedupLast {rs : List PRow} {x : PRow} (h : x ∈ dedupLast rs) :
    x ∈ rs := by
  induction rs with
  | nil => cases h
  | cons r rest ih =>
    rw [dedupLast] at h
    by_cases hdup : rest.any (fun s => s.equipment == r.equipment) = true
    · rw [if_pos hdup] at h
      exact List.mem_cons_of_mem r (ih h)
    · rw [if_neg hdup] at h
      rcases List.mem_cons.mp h with rfl | h'
      · exact List.mem_cons_self _ _
      · exact List.mem_cons_of_mem r (ih h')

theorem dedupLast_filter (rs : List PRow) (k : Option String) :
    (dedupLast rs).filter (fun r => r.equipment == k) =
      ((rs.filter (fun r => r.equipment == k)).getLast?).toList := by
  induction rs with
  | nil => rfl
  | cons r rest ih =>
    rw [dedupLast]
    by_cases hdup : rest.any (fun s => s.equipment == r.equipment) = true
    · rw [if_pos hdup]
      rw [ih]
      by_cases hk : (r.equipment == k) = true
      · rw [List.filter_cons, if_pos hk]
        obtain ⟨s, hs, hsr⟩ := List.any_eq_true.mp hdup
        have hsk : (s.equipment == k) = true := by
          rw [beq_iff_eq] at hsr hk ⊢
          rw [hsr, hk]
        have hne : rest.filter (fun r => r.equipment == k) ≠ [] := by
          intro hnil
          exact absurd hsk ((List.filter_eq_nil_iff.mp hnil) s hs)
        cases hf : rest.filter (fun r => r.equipment == k) with
        | nil => exact absurd hf hne
        | cons a l =>
          rw [List.getLast?_cons_cons]
      · rw [List.filter_cons, if_neg hk]
    · rw [if_neg hdup]
      by_cases hk : (r.equipment == k) = true
      · rw [List.filter_cons, List.filter_cons, if_pos hk, if_pos hk]
        have hnone : ∀ s ∈ rest, ¬((s.equipment == k) = true) := by
          intro s hs hsk
          apply hdup
          rw [List.any_eq_true]
          refine ⟨s, hs, ?_⟩
          rw [beq_iff_eq] at hsk hk ⊢
          rw [hsk, hk]
        have hf₁ : rest.filter (fun r => r.equipment == k) = [] :=
          List.filter_eq_nil_iff.mpr hnone
        have hf₂ : (dedupLast rest).filter (fun r => r.equipment == k) = [] :=
          List.filter_eq_nil_iff.mpr (fun s hs => hnone s (mem_dedupLast hs))
        rw [hf₁, hf₂]
        rfl
      · rw [List.filter_cons, List.filter_cons, if_neg hk, if_neg hk]
        exact ih

theorem flatten_eq_of_unique {β : Type} (L : List (String × List PRow))
    (b : String) (rs : List PRow) (G : String → List PRow → List β)
    (hmem : (b, rs) ∈ L) (hnd : (L.map Prod.fst).Nodup)
    (hzero : ∀ b' rs', (b', rs') ∈ L → b' ≠ b → G b' rs' = []) :
    (L.map (fun p => G p.1 p.2)).flatten = G b rs := by
  induction L with
  | nil => cases hmem
  | cons p rest ih =>
    obtain ⟨b', rs'⟩ := p
    rw [List.map_cons, List.flatten_cons]
    simp only [List.map_cons, List.nodup_cons] at hnd
    rcases List.mem_cons.mp hmem with heq | hmem'
    · cases heq
      have hrest : (rest.map (fun p => G p.1 p.2)).flatten = [] := by
        rw [List.flatten_eq_nil_iff]
        intro l hl
        obtain ⟨q, hq, rfl⟩ := List.mem_map.mp hl
        apply hzero q.1 q.2 (List.mem_cons_of_mem _ (by simpa using hq))
        intro hqb
        apply hnd.1
        rw [← hqb]
        exact List.mem_map.mpr ⟨q, hq, rfl⟩
      rw [hrest, List.append_nil]
    · have hb' : b' ≠ b := by
        intro hbb
        apply hnd.1
        rw [hbb]
        exact List.mem_map.mpr ⟨(b, rs), hmem', rfl⟩
      rw [hzero b' rs' (List.mem_cons_self _ _) hb', List.nil_append]
      exact ih hmem' hnd.2
        (fun b₂ rs₂ h₂ => hzero b₂ rs₂ (List.mem_cons_of_mem _ h₂))

/-- C5. For every non-empty simulation profile result: the reshaped table
has the engine's units row first; the remaining rows are, up to order,
exactly the per-branch forward-filled, last-kept de-duplicated rows tagged
with their branch; they are sorted by (branch, equipment) ascending; and
for every branch and every equipment label the output holds exactly one
row — the last occurrence of that label in the forward-filled branch
data. -/
theorem process_profile_results_spec
    (profileUnits : List (String × Option PVal))
    (profile : List (String × List PRow))
    (hne : profile ≠ []) (hnd : (profile.map Prod.fst).Nodup) :
    ∃ out, process_profile_results profileUnits profile = .ok out ∧
      out.head? = some ⟨none, none, profileUnits⟩ ∧
      (out.drop 1).Perm
        ((profile.map
          (fun p => (dedupLast (ffill none p.2)).map (tagBranch p.1))).flatten) ∧
      List.Pairwise (fun a b => profLE a b = true) (out.drop 1) ∧
      (∀ b rs, (b, rs) ∈ profile → ∀ l : String,
        (out.drop 1).filter
            (fun r => r.branch == some b && r.equipment == some l) =
          ((((ffill none rs).filter
              (fun r => r.equipment == some l)).getLast?).map
            (tagBranch b)).toList) := by
  have hbperm : (List.insertionSort
      (fun a b : String × List PRow => strLe a.1 b.1 = true) profile).Perm profile :=
    List.perm_insertionSort _ _
  refine ⟨⟨none, none, profileUnits⟩ ::
      List.insertionSort (fun a b => profLE a b = true)
        (((List.insertionSort
            (fun a b : String × List PRow => strLe a.1 b.1 = true) profile).map
          (fun p => (dedupLast (ffill none p.2)).map (tagBranch p.1))).flatten),
    ?_, rfl, ?_, ?_, ?_⟩
  · rw [process_profile_results, if_neg hne]
  · exact (List.perm_insertionSort _ _).trans
      ((hbperm.map
        (fun p => (dedupLast (ffill none p.2)).map (tagBranch p.1))).flatten)
  · haveI : IsTotal BRow (fun a b => profLE a b = true) := ⟨profLE_total⟩
    haveI : IsTrans BRow (fun a b => profLE a b = true) := ⟨profLE_trans⟩
    exact List.sorted_insertionSort _ _
  · intro b rs hmem l
    have hfp := (List.perm_insertionSort (fun a b => profLE a b = true)
        (((List.insertionSort
            (fun a b : String × List PRow => strLe a.1 b.1 = true) profile).map
          (fun p => (dedupLast (ffill none p.2)).map (tagBranch p.1))).flatten)).filter
      (fun r => r.branch == some b && r.equipment == some l)
    rw [List.filter_flatten, List.map_map] at hfp
    rw [show ((List.filter (fun r : BRow => r.branch == some b && r.equipment == some l)) ∘
        (fun p : String × List PRow =>
          (dedupLast (ffill none p.2)).map (tagBranch p.1))) =
      (fun p : String × List PRow =>
        List.filter (fun r : BRow => r.branch == some b && r.equipment == some l)
          ((dedupLast (ffill none p.2)).map (tagBranch p.1))) from rfl] at hfp
    have hmem' : (b, rs) ∈ List.insertionSort
        (fun a b : String × List PRow => strLe a.1 b.1 = true) profile :=
      hbperm.mem_iff.mpr hmem
    have hnd' : ((List.insertionSort
        (fun a b : String × List PRow => strLe a.1 b.1 = true) profile).map
          Prod.fst).Nodup :=
      (hbperm.map Prod.fst).nodup_iff.mpr hnd
    have hzero : ∀ b' rs', (b', rs') ∈ List.insertionSort
        (fun a b : String × List PRow => strLe a.1 b.1 = true) profile → b' ≠ b →
        List.filter (fun r : BRow => r.branch == some b && r.equipment == some l)
          ((dedupLast (ffill none rs')).map (tagBranch b')) = [] := by
      intro b' rs' _ hbb
      rw [List.filter_eq_nil_iff]
      intro x hx
      obtain ⟨r, _, rfl⟩ := List.mem_map.mp hx
      simp [tagBranch, hbb]
    have hflat := flatten_eq_of_unique
      (List.insertionSort (fun a b : String × List PRow => strLe a.1 b.1 = true)
        profile) b rs
      (fun b' rs' =>
        List.filter (fun r : BRow => r.branch == some b && r.equipment == some l)
          ((dedupLast (ffill none rs')).map (tagBranch b')))
      hmem' hnd' hzero
    have hflat' : (List.map (fun p : String × List PRow =>
        List.filter (fun r : BRow => r.branch == some b && r.equipment == some l)
          ((dedupLast (ffill none p.2)).map (tagBranch p.1)))
        (List.insertionSort
          (fun a b : String × List PRow => strLe a.1 b.1 = true) profile)).flatten =
      List.filter (fun r : BRow => r.branch == some b && r.equipment == some l)
        ((dedupLast (ffill none rs)).map (tagBranch b)) := hflat
    rw [hflat'] at hfp
    have hGb : List.filter
        (fun r : BRow => r.branch == some b && r.equipment == some l)
        ((dedupLast (ffill none rs)).map (tagBranch b)) =
        ((dedupLast (ffill none rs)).filter
          (fun r => r.equipment == some l)).map (tagBranch b) := by
      rw [List.filter_map]
      congr 1
      apply List.filter_congr
      intro r _
      simp [tagBranch, Function.comp]
    rw [hGb, dedupLast_filter] at hfp
    cases hl : ((ffill none rs).filter (fun r => r.equipment == some l)).getLast? with
    | none =>
      rw [hl] at hfp
      simp only [Option.toList] at hfp ⊢
      simp only [List.map_nil] at hfp
      exact hfp.eq_nil
    | some x =>
      rw [hl] at hfp
      simp only [Option.toList, Option.map] at hfp ⊢
      simp only [List.map_cons, List.map_nil] at hfp
      exact List.perm_singleton.mp hfp

/-- Witness for C5: one branch B1 whose raw rows carry the sparse labels
None, PumpA, None, StrainerB (so the forward-filled labels are None, PumpA,
PumpA, StrainerB as in the specification's scenario). -/
theorem process_profile_results_spec_witness :
    ∃ out, process_profile_results [("Pressure", some (.str "barg"))]
        [("B1", [⟨none, []⟩, ⟨some "PumpA", []⟩,
                 ⟨none, [("Pressure", some (.num 5))]⟩, ⟨some "StrainerB", []⟩])] =
      .ok out ∧
      out.head? = some ⟨none, none, [("Pressure", some (.str "barg"))]⟩ ∧
      (out.drop 1).Perm
        (([("B1", [⟨none, []⟩, ⟨some "PumpA", []⟩,
                   ⟨none, [("Pressure", some (.num 5))]⟩, ⟨some "StrainerB", []⟩])] :
            List (String × List PRow)).map
          (fun p => (dedupLast (ffill none p.2)).map (tagBranch p.1))).flatten ∧
      List.Pairwise (fun a b => profLE a b = true) (out.drop 1) ∧
      (∀ b rs, (b, rs) ∈
          ([("B1", [⟨none, []⟩, ⟨some "PumpA", []⟩,
                    ⟨none, [("Pressure", some (.num 5))]⟩, ⟨some "StrainerB", []⟩])] :
            List (String × List PRow)) → ∀ l : String,
        (out.drop 1).filter
            (fun r => r.branch == some b && r.equipment == some l) =
          ((((ffill none rs).filter
              (fun r => r.equipment == some l)).getLast?).map
            (tagBranch b)).toList) :=
  process_profile_results_spec [("Pressure", some (.str "barg"))]
    [("B1", [⟨none, []⟩, ⟨some "PumpA", []⟩,
             ⟨none, [("Pressure", some (.num 5))]⟩, ⟨some "StrainerB", []⟩])]
    (by decide) (by decide)

end NetworkSimulator

/-! ## ModelPopulater — export / bulk-import round trip

Embedding of `ModelPopulater.export_values` and `bulk_import_values`.
The spreadsheet file is the external TabularDataSource: writing a frame to
a sheet and reading it back with `index_col=0` is the identity on the
table, so the sheets produced by `export_values` are consumed directly by
`bulk_import_values`. -/

namespace ModelPopulater

/-- One live component of the open model: its unique name, its component
type, and its parameter dictionary (a `none` value renders as NaN in the
exported frame). -/
structure Component where
  name : String
  ctype : String
  params : List (String × Option PVal)
deriving DecidableEq

/-- The observable value of one parameter of a component: a parameter that
is absent and one whose value is null are both NaN in every frame the
engine and the export/import path exchange. -/
def cellOf (c : Component) (p : String) : Option PVal :=
  (c.params.lookup p).join

/-- `model.get_values(component=t)`: the components of type `t`. -/
def getValuesT (m : List Component) (t : String) : List Component :=
  m.filter (fun c => c.ctype == t)

/-- One exported sheet, `pd.DataFrame(v).T` written under the component
type's name: rows keyed by component name, one cell per column. -/
structure Sheet where
  sheetName : String
  cols : List String
  rows : List (String × List (String × Option PVal))
deriving DecidableEq

/-- The union of the parameter names of one type's components — the column
alignment `pd.DataFrame` performs on a ragged dict of dicts. -/
def unionCols (cs : List Component) : List String :=
  MultiCaseModeller.uniqueFirst (cs.flatMap (fun c => c.params.map Prod.fst))

/-- `ModelPopulater.export_values` writes, for each component type, the
frame `pd.DataFrame(model.get_values(component=t)).T` to the sheet named
`t`. -/
def exportSheet (m : List Component) (t : String) : Sheet :=
  ⟨t, unionCols (getValuesT m t),
    (getValuesT m t).map
      (fun c =>
        (c.name, (unionCols (getValuesT m t)).map (fun p => (p, cellOf c p))))⟩

/-- `ModelPopulater.export_values` over the known component-type vocabulary
(`get_string_values_from_class(ModelComponents)`). -/
def export_values (m : List Component) (known : List String) : List Sheet :=
  known.map (exportSheet m)

/-- `value.dropna(how="all", axis=1)`: a column survives when some row has
a value in it. -/
def colKept (s : Sheet) (p : String) : Bool :=
  s.rows.any (fun r => !(((r.2.lookup p).join).isNone))

/-- Drop the all-NaN columns of a sheet. -/
def dropAllNaCols (s : Sheet) : Sheet :=
  ⟨s.sheetName, s.cols.filter (fun p => colKept s p),
    s.rows.map (fun r => (r.1, r.2.filter (fun pv => colKept s pv.1)))⟩

/-- `model.set_values(dict=d)`: per named component, write each given
parameter cell (an engine write of a NaN cell stores a null value, which is
observably the same as an absent one). -/
def set_values (m : List Component)
    (d : List (String × List (String × Option PVal))) : List Component :=
  m.map (fun c =>
    match d.lookup c.name with
    | none => c
    | some upd => { c with params := setParams c.params upd })

/-- `ModelPopulater.bulk_import_values`: for every sheet whose name is a
known component type, drop the all-NaN columns and push
`to_dict(orient="index")` through `set_values`. -/
def bulk_import_values (m : List Component) (sheets : List Sheet)
    (known : List String) : List Component :=
  sheets.foldl
    (fun acc s =>
      if s.sheetName ∈ known then set_values acc (dropAllNaCols s).rows else acc) m

/-- Observable equality of two components: same name and type, and every
parameter cell observably equal. -/
def obsEqC (c c' : Component) : Prop :=
  c.name = c'.name ∧ c.ctype = c'.ctype ∧ ∀ p, cellOf c p = cellOf c' p

theorem lookup_comp_rows_inv {β : Type} {cs : List Component}
    {g : Component → β} {n : String} {v : β}
    (h : (cs.map (fun c => (c.name, g c))).lookup n = some v) :
    ∃ d ∈ cs, d.name = n ∧ v = g d := by
  induction cs with
  | nil => cases h
  | cons c rest ih =>
    rw [List.map_cons] at h
    by_cases hn : n = c.name
    · refine ⟨c, List.mem_cons_self _ _, hn.symm, ?_⟩
      simp only [List.lookup, show (n == c.name) = true from by simpa using hn] at h
      exact (Option.some.inj h).symm
    · simp only [List.lookup,
        show (n == c.name) = false from by simpa using hn] at h
      obtain ⟨d, hd, hdn, hv⟩ := ih h
      exact ⟨d, List.mem_cons_of_mem _ hd, hdn, hv⟩

theorem lookup_pairs_val {β : Type} {cols : List String} {h : String → β}
    {q : String} {v : β}
    (hl : (cols.map (fun p => (p, h p))).lookup q = some v) : v = h q := by
  induction cols with
  | nil => cases hl
  | cons p ps ih =>
    rw [List.map_cons] at hl
    by_cases hq : q = p
    · subst hq
      simp only [List.lookup, show (q == q) = true from by simp] at hl
      exact (Option.some.inj hl).symm
    · simp only [List.lookup,
        show (q == p) = false from by simpa using hq] at hl
      exact ih hl

theorem name_inj {m : List Component} (hnd : (m.map Component.name).Nodup)
    {c d : Component} (hc : c ∈ m) (hd : d ∈ m) (h : c.name = d.name) : c = d := by
  induction m with
  | nil => cases hc
  | cons a rest ih =>
    simp only [List.map_cons, List.nodup_cons] at hnd
    rcases List.mem_cons.mp hc with rfl | hc'
    · rcases List.mem_cons.mp hd with rfl | hd'
      · rfl
      · exact absurd (h ▸ List.mem_map.mpr ⟨d, hd', rfl⟩) hnd.1
    · rcases List.mem_cons.mp hd with rfl | hd'
      · exact absurd (h ▸ List.mem_map.mpr ⟨c, hc', rfl⟩) hnd.1
      · exact ih hnd.2 hc' hd'

theorem update_preserves {c' c : Component}
    {upd : List (String × Option PVal)}
    (h : obsEqC c' c) (hk : (upd.map Prod.fst).Nodup)
    (hval : ∀ q v, upd.lookup q = some v → v = cellOf c q) :
    obsEqC { c' with params := setParams c'.params upd } c := by
  refine ⟨h.1, h.2.1, ?_⟩
  intro q
  show ((setParams c'.params upd).lookup q).join = cellOf c q
  rw [lookup_setParams _ _ _ hk]
  cases hq : upd.lookup q with
  | some v =>
    rw [hval q v hq]
    rfl
  | none => exact h.2.2 q

theorem set_values_obs {acc m : List Component}
    {rows' : List (String × List (String × Option PVal))}
    (hacc : List.Forall₂ obsEqC acc m)
    (hl : ∀ c ∈ m, ∀ upd, rows'.lookup c.name = some upd →
      (upd.map Prod.fst).Nodup ∧ ∀ q v, upd.lookup q = some v → v = cellOf c q) :
    List.Forall₂ obsEqC (set_values acc rows') m := by
  induction hacc with
  | nil => exact List.Forall₂.nil
  | cons hcc hrest ih =>
    rw [set_values, List.map_cons]
    refine List.Forall₂.cons ?_
      (ih (fun c hc upd hupd => hl c (List.mem_cons_of_mem _ hc) upd hupd))
    rename_i c' c acc' m'
    cases hlook : rows'.lookup c'.name with
    | none => exact hcc
    | some upd =>
      have hlook' : rows'.lookup c.name = some upd := by
        rw [← hcc.1]
        exact hlook
      obtain ⟨hk, hv⟩ := hl c (List.mem_cons_self _ _) upd hlook'
      exact update_preserves hcc hk hv

theorem export_sheet_good (m : List Component) (t : String)
    (hnd : (m.map Component.name).Nodup) :
    ∀ c ∈ m, ∀ upd, ((dropAllNaCols (exportSheet m t)).rows).lookup c.name = some upd →
      (upd.map Prod.fst).Nodup ∧ ∀ q v, upd.lookup q = some v → v = cellOf c q := by
  intro c hc upd hupd
  have hrows : (dropAllNaCols (exportSheet m t)).rows =
      (getValuesT m t).map (fun d => (d.name,
        ((unionCols (getValuesT m t)).map
          (fun p => (p, cellOf d p))).filter
            (fun pv => colKept (exportSheet m t) pv.1))) := by
    rw [dropAllNaCols, exportSheet, List.map_map]
    rfl
  rw [hrows] at hupd
  obtain ⟨d, hd, hdn, rfl⟩ := lookup_comp_rows_inv hupd
  have hdm : d ∈ m := (List.mem_filter.mp hd).1
  have hdc : d = c := name_inj hnd hdm hc hdn
  subst hdc
  have hflt : ((unionCols (getValuesT m t)).map
      (fun p => (p, cellOf d p))).filter
        (fun pv => colKept (exportSheet m t) pv.1) =
      ((unionCols (getValuesT m t)).filter
        (fun p => colKept (exportSheet m t) p)).map
          (fun p => (p, cellOf d p)) := by
    rw [List.filter_map]
    rfl
  rw [hflt]
  constructor
  · have : (((unionCols (getValuesT m t)).filter
        (fun p => colKept (exportSheet m t) p)).map
          (fun p => (p, cellOf d p))).map Prod.fst =
        (unionCols (getValuesT m t)).filter
          (fun p => colKept (exportSheet m t) p) := by
      rw [List.map_map]
      exact List.map_id'' (fun _ => rfl) _
    rw [this]
    exact List.Nodup.filter _
      (MultiCaseModeller.nodup_uniqueFirst _)
  · intro q v hqv
    exact lookup_pairs_val hqv

theorem fold_sheets_obs (m : List Component) (known0 : List String)
    (hnd : (m.map Component.name).Nodup) :
    ∀ (ts : List String) (acc : List Component), List.Forall₂ obsEqC acc m →
      List.Forall₂ obsEqC
        ((ts.map (exportSheet m)).foldl
          (fun acc s =>
            if s.sheetName ∈ known0 then set_values acc (dropAllNaCols s).rows
            else acc) acc) m := by
  intro ts
  induction ts with
  | nil =>
    intro acc hacc
    exact hacc
  | cons t ts ih =>
    intro acc hacc
    rw [List.map_cons, List.foldl_cons]
    apply ih
    by_cases hmem : (exportSheet m t).sheetName ∈ known0
    · rw [if_pos hmem]
      exact set_values_obs hacc (export_sheet_good m t hnd)
    · rw [if_neg hmem]
      exact hacc

/-- C6. Exporting an unmodified model with `export_values` and re-importing
the exported sheets with `bulk_import_values` leaves every component
parameter value observably unchanged: the resulting model is component-wise
observably equal (same names, same types, identical parameter cells) to the
original.  The only assumption is the model invariant that component names
are unique. -/
theorem export_import_roundtrip (m : List Component) (known : List String)
    (hnd : (m.map Component.name).Nodup) :
    List.Forall₂ obsEqC (bulk_import_values m (export_values m known) known) m := by
  have hbase : List.Forall₂ obsEqC m m := by
    rw [List.forall₂_same]
    intro c _
    exact ⟨rfl, rfl, fun _ => rfl⟩
  rw [export_values, bulk_import_values]
  exact fold_sheets_obs m known hnd known m hbase

/-- Witness for C6: a two-component model (a Pump with a set parameter and
a Flowline with a null one) round-trips observably unchanged through the
three known component-type sheets. -/
theorem export_import_roundtrip_witness :
    List.Forall₂ obsEqC
      (bulk_import_values
        [⟨"P1", "Pump", [("Speed", some (.num 3))]⟩,
         ⟨"F1", "Flowline", [("Length", none)]⟩]
        (export_values
          [⟨"P1", "Pump", [("Speed", some (.num 3))]⟩,
           ⟨"F1", "Flowline", [("Length", none)]⟩]
          ["Pump", "Flowline", "Sink"])
        ["Pump", "Flowline", "Sink"])
      [⟨"P1", "Pump", [("Speed", some (.num 3))]⟩,
       ⟨"F1", "Flowline", [("Length", none)]⟩] :=
  export_import_roundtrip
    [⟨"P1", "Pump", [("Speed", some (.num 3))]⟩,
     ⟨"F1", "Flowline", [("Length", none)]⟩]
    ["Pump", "Flowline", "Sink"] (by decide)

end ModelPopulater

end PIPSIM
